import Mathlib

/-!
Verification of the vivaldi-icon-maker recoloring core.

The TypeScript sources (`src/colorTransforms.ts`, `src/svgColorizer.ts`,
`src/lib/vivaldiIconMaker.ts`) are shallowly embedded here:

* JavaScript strings are modelled as `List Char`;
* JavaScript numbers are modelled as `ℚ` (the code performs only
  arithmetic on parsed decimal/hex values, clamps and rounding);
* code that can `throw` is modelled in `Except JsError`;
* the regular-expression rewriting passes are modelled as explicit
  left-to-right scanners with the exact matching semantics of the
  patterns used by the source (`g`/`i` flags, lazy and greedy pieces,
  `.` excluding line terminators, character classes).

Scanners use a fuel parameter (instantiated with the length of the
scanned text) so that every definition is structurally recursive and
kernel-reducible.
-/

set_option autoImplicit false

namespace VivaldiIcon

/- The rational operations are `@[irreducible]` upstream, which blocks
`decide`-style evaluation of the embedded arithmetic on concrete inputs;
restore the default reducibility locally. -/

attribute [local semireducible] Rat.mul Rat.add Rat.sub Rat.inv

/-- Characters of a string literal; used to move JavaScript string
literals into the `List Char` model. -/
def strChars (s : String) : List Char := s.data

/-- ASCII lowercasing of one character, modelling
`String.prototype.toLowerCase` on the character range the sources use. -/
def toLowerChar (c : Char) : Char :=
  if 65 ≤ c.toNat ∧ c.toNat ≤ 90 then Char.ofNat (c.toNat + 32) else c

/-- `s.toLowerCase()`. -/
def lowerStr (s : List Char) : List Char := s.map toLowerChar

/-- JavaScript `\s` on the ASCII range (space, tab, LF, VT, FF, CR). -/
def isWsChar (c : Char) : Bool :=
  c.toNat == 32 || c.toNat == 9 || c.toNat == 10 || c.toNat == 13 ||
    c.toNat == 11 || c.toNat == 12

/-- `String.prototype.trim`. -/
def jsTrim (s : List Char) : List Char :=
  ((s.dropWhile isWsChar).reverse.dropWhile isWsChar).reverse

/-- `pat` is a (case-sensitive) prefix of `s`. -/
def isPrefixOf : List Char → List Char → Bool
  | [], _ => true
  | _ :: _, [] => false
  | p :: ps, c :: cs => p == c && isPrefixOf ps cs

/-- `pat` is a case-insensitive prefix of `s` (ASCII case folding, as the
`i` regex flag behaves on the patterns of the sources). -/
def isPrefixOfCI : List Char → List Char → Bool
  | [], _ => true
  | _ :: _, [] => false
  | p :: ps, c :: cs => toLowerChar p == toLowerChar c && isPrefixOfCI ps cs

/-- `s.includes(pat)` (case-sensitive substring test). -/
def containsSub (pat : List Char) : List Char → Bool
  | [] => pat.isEmpty
  | c :: cs => isPrefixOf pat (c :: cs) || containsSub pat cs

/-- Case-insensitive substring test. -/
def containsSubCI (pat : List Char) : List Char → Bool
  | [] => pat.isEmpty
  | c :: cs => isPrefixOfCI pat (c :: cs) || containsSubCI pat cs

/-- `s.split(sep)` for a one-character separator (as used with `";"` and
`":"` by the inline-style pass). -/
def splitOnChar (sep : Char) : List Char → List (List Char)
  | [] => [[]]
  | c :: cs =>
    if c == sep then [] :: splitOnChar sep cs
    else
      match splitOnChar sep cs with
      | [] => [[c]]
      | t :: ts => (c :: t) :: ts

/-- `parts.join(sep)`. -/
def joinSep (sep : List Char) : List (List Char) → List Char
  | [] => []
  | [x] => x
  | x :: y :: ys => x ++ sep ++ joinSep sep (y :: ys)

/-! ### `src/colorTransforms.ts` -/

/-- The two error kinds of §7 of the specification.  The source throws
`Error` values with fixed messages; the message texts are irrelevant to
the claims and only the kind is kept. -/
inductive JsError where
  | invalidColor
  | invalidSvgDocument
deriving DecidableEq, Repr

instance exceptDecEq {ε α : Type} [DecidableEq ε] [DecidableEq α] :
    DecidableEq (Except ε α) := fun x y =>
  match x, y with
  | .error e, .error f =>
    if h : e = f then .isTrue (by rw [h]) else .isFalse (by intro hc; cases hc; exact h rfl)
  | .error _, .ok _ => .isFalse (by intro hc; cases hc)
  | .ok _, .error _ => .isFalse (by intro hc; cases hc)
  | .ok a, .ok b =>
    if h : a = b then .isTrue (by rw [h]) else .isFalse (by intro hc; cases hc; exact h rfl)

/-- `interface Rgba` of `colorTransforms.ts`: channel values as produced by
the code (`r`,`g`,`b` are 0–255 bytes, `a` is a 0–1 fraction). -/
structure Rgba where
  r : ℚ
  g : ℚ
  b : ℚ
  a : ℚ
deriving DecidableEq, Repr

/-- `interface Hsla` of `colorTransforms.ts`. -/
structure Hsla where
  h : ℚ
  s : ℚ
  l : ℚ
  a : ℚ
deriving DecidableEq, Repr

/-- Hexadecimal digit test (both cases), as in `parseInt(·, 16)`. -/
def isHexDigit (c : Char) : Bool :=
  (48 ≤ c.toNat && c.toNat ≤ 57) || (97 ≤ c.toNat && c.toNat ≤ 102) ||
    (65 ≤ c.toNat && c.toNat ≤ 70)

/-- Value of one hexadecimal digit (0 on a non-digit; see `jsParseIntHex`). -/
def hexDigitVal (c : Char) : Nat :=
  if 48 ≤ c.toNat && c.toNat ≤ 57 then c.toNat - 48
  else if 97 ≤ c.toNat && c.toNat ≤ 102 then c.toNat - 87
  else if 65 ≤ c.toNat && c.toNat ≤ 70 then c.toNat - 55
  else 0

/-- `parseInt(s, 16)`: value of the longest hexadecimal prefix.  When the
string has no leading hex digit JavaScript yields `NaN`; none of the
claims depends on the numeric result of that case and it is collapsed
to 0 here (the error behaviour of the parsing entry points — a throw on
a bad digit count — is modelled exactly). -/
def jsParseIntHex (s : List Char) : ℚ :=
  (((s.takeWhile isHexDigit).foldl (fun acc c => 16 * acc + hexDigitVal c) 0 : ℕ) : ℚ)

/-- `hex.trim().replace(/^#/, "")` (one leading `#` removed). -/
def stripHash (s : List Char) : List Char :=
  match s with
  | '#' :: rest => rest
  | _ => s

/-- `parseShortHex` of `colorTransforms.ts` (3- and 4-digit forms, each
digit duplicated). -/
def parseShortHex (value : List Char) : Rgba :=
  match value with
  | [c1, c2, c3] =>
    { r := jsParseIntHex [c1, c1], g := jsParseIntHex [c2, c2],
      b := jsParseIntHex [c3, c3], a := 1 }
  | [c1, c2, c3, c4] =>
    { r := jsParseIntHex [c1, c1], g := jsParseIntHex [c2, c2],
      b := jsParseIntHex [c3, c3], a := jsParseIntHex [c4, c4] / 255 }
  | _ => { r := 0, g := 0, b := 0, a := 1 }

/-- `parseLongHex` of `colorTransforms.ts` (6- and 8-digit forms). -/
def parseLongHex (value : List Char) : Rgba :=
  { r := jsParseIntHex (value.take 2)
    g := jsParseIntHex ((value.drop 2).take 2)
    b := jsParseIntHex ((value.drop 4).take 2)
    a := if value.length = 8 then jsParseIntHex ((value.drop 6).take 2) / 255 else 1 }

/-- `parseHexColor` of `colorTransforms.ts`; throws on a digit count other
than 3, 4, 6, 8. -/
def parseHexColor (hex : List Char) : Except JsError Rgba :=
  let normalized := stripHash (jsTrim hex)
  if ¬ (normalized.length = 3 ∨ normalized.length = 4 ∨ normalized.length = 6 ∨
        normalized.length = 8) then
    .error .invalidColor
  else if normalized.length = 3 ∨ normalized.length = 4 then
    .ok (parseShortHex normalized)
  else
    .ok (parseLongHex normalized)

/-- One lowercase hexadecimal digit character (`Number.prototype.toString(16)`
digit alphabet). -/
def hexDigitChar (n : Nat) : Char := Char.ofNat (if n < 10 then 48 + n else 87 + n)

/-- Auxiliary digit accumulator for `natToHex`. -/
def natToHexAux : Nat → Nat → List Char → List Char
  | 0, _, acc => acc
  | fuel + 1, n, acc =>
    if n < 16 then hexDigitChar n :: acc
    else natToHexAux fuel (n / 16) (hexDigitChar (n % 16) :: acc)

/-- `n.toString(16)` for a natural number. -/
def natToHex (n : Nat) : List Char := natToHexAux (n + 1) n []

/-- `.padStart(2, "0")`. -/
def padStart2 (s : List Char) : List Char := if s.length < 2 then '0' :: s else s

/-- `Math.round` (round half towards +∞, as JavaScript does). -/
def jsRound (q : ℚ) : ℤ := ⌊q + 1 / 2⌋

/-- Channel byte of a rational channel value.  The code only ever formats
integral channel values in `[0, 255]` (parsed bytes and rounded-and-clamped
conversion results), for which this is exact. -/
def ratToByteNat (q : ℚ) : Nat := (⌊q⌋).toNat

/-- `formatHexColor` of `colorTransforms.ts`. -/
def formatHexColor (color : Rgba) (includeAlpha : Bool) : List Char :=
  let r := padStart2 (natToHex (ratToByteNat color.r))
  let g := padStart2 (natToHex (ratToByteNat color.g))
  let b := padStart2 (natToHex (ratToByteNat color.b))
  if includeAlpha then
    let alphaByte := jsRound (color.a * 255)
    let a := padStart2 (natToHex alphaByte.toNat)
    '#' :: (r ++ g ++ b ++ a)
  else
    '#' :: (r ++ g ++ b)

/-- `hasExplicitAlpha` of `colorTransforms.ts`. -/
def hasExplicitAlpha (input : List Char) : Bool :=
  let len := (stripHash (jsTrim input)).length
  len == 4 || len == 8

/-- `clamp` of `colorTransforms.ts`. -/
def clamp (value minV maxV : ℚ) : ℚ := min (max value minV) maxV

/-- `clampChannel` of `colorTransforms.ts`. -/
def clampChannel (value : ℚ) : ℚ := min (max value 0) 255

/-- `clamp01` of `colorTransforms.ts`. -/
def clamp01 (value : ℚ) : ℚ := clamp value 0 1

/-- Truncation towards zero, the rounding of the JavaScript `%` operator. -/
def ratTrunc (q : ℚ) : ℤ := if 0 ≤ q then ⌊q⌋ else -⌊-q⌋

/-- JavaScript remainder `a % b` (sign of the dividend). -/
def jsMod (a b : ℚ) : ℚ := a - b * (ratTrunc (a / b) : ℚ)

/-- `rgbToHsl` of `colorTransforms.ts`. -/
def rgbToHsl (color : Rgba) : Hsla :=
  let r := color.r / 255
  let g := color.g / 255
  let b := color.b / 255
  let maxC := max r (max g b)
  let minC := min r (min g b)
  let delta := maxC - minC
  let h :=
    if delta ≠ 0 then
      let h1 : ℚ :=
        if maxC = r then jsMod ((g - b) / delta) 6
        else if maxC = g then (b - r) / delta + 2
        else (r - g) / delta + 4
      let h2 := h1 * 60
      if h2 < 0 then h2 + 360 else h2
    else 0
  let l := (maxC + minC) / 2
  let s := if delta = 0 then 0 else delta / (1 - |2 * l - 1|)
  { h := h, s := s, l := l, a := color.a }

/-- `hueToRgb` of `colorTransforms.ts`. -/
def hueToRgb (p q t : Rat) : ℚ :=
  let t1 := if t < 0 then t + 1 else t
  let t2 := if t1 > 1 then t1 - 1 else t1
  if t2 < 1 / 6 then p + (q - p) * 6 * t2
  else if t2 < 1 / 2 then q
  else if t2 < 2 / 3 then p + (q - p) * (2 / 3 - t2) * 6
  else p

/-- `hslToRgb` of `colorTransforms.ts`. -/
def hslToRgb (color : Hsla) : Rgba :=
  let h := color.h / 360
  let s := clamp01 color.s
  let l := clamp01 color.l
  if s = 0 then
    let gray := clampChannel ((jsRound (l * 255) : ℤ) : ℚ)
    { r := gray, g := gray, b := gray, a := color.a }
  else
    let q := if l < 1 / 2 then l * (1 + s) else l + s - l * s
    let p := 2 * l - q
    { r := clampChannel ((jsRound (hueToRgb p q (h + 1 / 3) * 255) : ℤ) : ℚ)
      g := clampChannel ((jsRound (hueToRgb p q h * 255) : ℤ) : ℚ)
      b := clampChannel ((jsRound (hueToRgb p q (h - 1 / 3) * 255) : ℤ) : ℚ)
      a := color.a }

/-- `desaturation` as computed inside `createInactiveColor`. -/
def inactiveDesaturation (ratio : ℚ) : ℚ := 3 / 10 + 3 / 10 * ratio

/-- `lightBoost` as computed inside `createInactiveColor`. -/
def inactiveLightBoost (ratio : ℚ) : ℚ := 2 / 10 + 2 / 10 * ratio

/-- `inactiveS` as computed inside `createInactiveColor`: the saturation of
the HSL value handed to `hslToRgb`. -/
def inactiveSat (parsed : Rgba) (ratio : ℚ) : ℚ :=
  clamp01 ((rgbToHsl parsed).s * (1 - inactiveDesaturation ratio))

/-- `inactiveL` as computed inside `createInactiveColor`: the lightness of
the HSL value handed to `hslToRgb`. -/
def inactiveLight (parsed : Rgba) (ratio : ℚ) : ℚ :=
  clamp01 ((rgbToHsl parsed).l + inactiveLightBoost ratio)

/-- `createInactiveColor` of `colorTransforms.ts`. -/
def createInactiveColor (color : List Char) (mixRatio : ℚ) :
    Except JsError (List Char) :=
  if lowerStr (jsTrim color) = strChars "none" then .ok (strChars "none")
  else do
    let ratio := clamp mixRatio 0 1
    let parsed ← parseHexColor color
    let hsl := rgbToHsl parsed
    let inactiveAlpha := clamp (parsed.a * (1 - 1 / 10 * ratio)) 0 1
    let inactiveRgb := hslToRgb
      { h := hsl.h, s := inactiveSat parsed ratio, l := inactiveLight parsed ratio,
        a := inactiveAlpha }
    return formatHexColor inactiveRgb (hasExplicitAlpha color)

/-- `createInactiveBackgroundColor` of `colorTransforms.ts`. -/
def createInactiveBackgroundColor (color : List Char) (mixRatio : ℚ) :
    Except JsError (List Char) := do
  let ratio := clamp mixRatio 0 1
  let parsed ← parseHexColor color
  let l := (rgbToHsl parsed).l
  let targetLightness := clamp01 (l * (1 - ratio) + 85 / 100 * ratio)
  let bgRgb := hslToRgb { h := 0, s := 0, l := targetLightness, a := 1 }
  return formatHexColor bgRgb false

/-- `clampRatio`: the inset-ratio clamp imported by
`src/lib/vivaldiIconMaker.ts` from its colour-transform module; the same
function is defined verbatim in `src/index.ts`. -/
def clampRatio (value : ℚ) : ℚ :=
  if value ≤ 0 then 0
  else if 9 / 10 ≤ value then 9 / 10
  else value

/-! ### `src/svgColorizer.ts` -/

/-- JavaScript `.` without the `s` flag: any character except a line
terminator (LF, CR, LS, PS). -/
def isLineTerm (c : Char) : Bool :=
  c.toNat == 10 || c.toNat == 13 || c.toNat == 8232 || c.toNat == 8233

/-- Consume the case-insensitive literal `pat` from the head of `s`; returns
the consumed characters (in their original casing) and the rest. -/
def takeLitCI : List Char → List Char → Option (List Char × List Char)
  | [], s => some ([], s)
  | _ :: _, [] => none
  | p :: ps, c :: cs =>
    if toLowerChar p = toLowerChar c then
      match takeLitCI ps cs with
      | some (tk, rest) => some (c :: tk, rest)
      | none => none
    else none

/-- The lazy piece `(.*?)"`: the characters up to the first `"`, none of
them a line terminator; fails when no such `"` exists. -/
def takeLazyValue : List Char → Option (List Char × List Char)
  | [] => none
  | c :: cs =>
    if c = '"' then some ([], cs)
    else if isLineTerm c then none
    else
      match takeLazyValue cs with
      | some (v, rest) => some (c :: v, rest)
      | none => none

/-- Match `(prop\s*=\s*")(.*?)"` (flags `gi`) at the head of `s`: returns the
first capture (prefix, in original casing), the second capture (value) and
the rest of the input after the closing quote. -/
def matchAttrAt (prop : List Char) (s : List Char) :
    Option (List Char × List Char × List Char) :=
  match takeLitCI prop s with
  | none => none
  | some (propTk, s1) =>
    let ws1 := s1.takeWhile isWsChar
    match s1.dropWhile isWsChar with
    | '=' :: s3 =>
      let ws2 := s3.takeWhile isWsChar
      match s3.dropWhile isWsChar with
      | '"' :: s5 =>
        match takeLazyValue s5 with
        | some (v, rest) => some (propTk ++ ws1 ++ ['='] ++ ws2 ++ ['"'], v, rest)
        | none => none
      | _ => none
    | _ => none

/-- The global scan of `replaceSvgAttributes`: leftmost matches of the
attribute pattern, each replaced by the callback of the source. -/
def scanAttr (prop color : List Char) (preserveNone : Bool) :
    Nat → List Char → List Char
  | _, [] => []
  | 0, s => s
  | fuel + 1, c :: cs =>
    match matchAttrAt prop (c :: cs) with
    | some (pfx, v, rest) =>
      if preserveNone ∧ lowerStr (jsTrim v) = strChars "none" ∧
          ¬ lowerStr (jsTrim color) = strChars "none" then
        (pfx ++ v ++ ['"']) ++ scanAttr prop color preserveNone fuel rest
      else
        (pfx ++ color ++ ['"']) ++ scanAttr prop color preserveNone fuel rest
    | none => c :: scanAttr prop color preserveNone fuel cs

/-- `replaceSvgAttributes` of `svgColorizer.ts`. -/
def replaceSvgAttributes (svgContent prop color : List Char)
    (preserveNone : Bool) : List Char :=
  scanAttr prop color preserveNone svgContent.length svgContent

/-- Match `style="([^"]*)"` (flags `gi`) at the head of `s`: returns the
consumed `style="` text (original casing), the body capture and the rest. -/
def matchStyleAt (s : List Char) : Option (List Char × List Char × List Char) :=
  match takeLitCI (strChars "style=\"") s with
  | none => none
  | some (tk, s1) =>
    let body := s1.takeWhile (fun c => c != '"')
    match s1.dropWhile (fun c => c != '"') with
    | '"' :: rest1 => some (tk, body, rest1)
    | _ => none

/-- The replacement callback of `replaceInlineStyleAttributes`, applied to
one matched `style` attribute (`tk` is the matched `style="` text, `body`
the matched body). -/
def processStyleBody (prop color : List Char) (preserveNone : Bool)
    (tk body : List Char) : List Char :=
  let declarations := ((splitOnChar ';' body).map jsTrim).filter (fun d => !d.isEmpty)
  if declarations.isEmpty then tk ++ body ++ ['"']
  else
    let step := fun (d : List Char) =>
      match (splitOnChar ':' d).map jsTrim with
      | [] => (false, d)
      | [_] => (false, d)
      | name :: value :: _ =>
        if name.isEmpty then (false, d)
        else if ¬ lowerStr name = prop then (false, d)
        else if preserveNone ∧ lowerStr value = strChars "none" ∧
            ¬ lowerStr (jsTrim color) = strChars "none" then (false, d)
        else (true, name ++ [':'] ++ color)
    let results := declarations.map step
    if results.any (fun r => r.1) then
      strChars "style=\"" ++ joinSep (strChars "; ") (results.map (fun r => r.2)) ++ ['"']
    else tk ++ body ++ ['"']

/-- The global scan of `replaceInlineStyleAttributes`. -/
def scanStyleAttr (prop color : List Char) (preserveNone : Bool) :
    Nat → List Char → List Char
  | _, [] => []
  | 0, s => s
  | fuel + 1, c :: cs =>
    match matchStyleAt (c :: cs) with
    | some (tk, body, rest) =>
      processStyleBody prop color preserveNone tk body ++
        scanStyleAttr prop color preserveNone fuel rest
    | none => c :: scanStyleAttr prop color preserveNone fuel cs

/-- `replaceInlineStyleAttributes` of `svgColorizer.ts`. -/
def replaceInlineStyleAttributes (svgContent prop color : List Char)
    (preserveNone : Bool) : List Char :=
  scanStyleAttr prop color preserveNone svgContent.length svgContent

/-- Split `s` at the first case-insensitive occurrence of `pat`:
`some (before, occ, after)` with `s = before ++ occ ++ after` and `occ` equal
to `pat` up to case. -/
def splitFirstCI (pat : List Char) : Nat → List Char → Option (List Char × List Char × List Char)
  | _, [] =>
    match takeLitCI pat [] with
    | some (tk, rest) => some ([], tk, rest)
    | none => none
  | 0, _ => none
  | fuel + 1, c :: cs =>
    match takeLitCI pat (c :: cs) with
    | some (tk, rest) => some ([], tk, rest)
    | none =>
      match splitFirstCI pat fuel cs with
      | some (pre, occ, post) => some (c :: pre, occ, post)
      | none => none

/-- Match `<style[^>]*>([\s\S]*?)<\/style>` (flags `gi`) at the head of `s`:
returns the open-tag text, the lazily captured content, the matched closing
tag text and the rest. -/
def matchStyleBlockAt (s : List Char) :
    Option (List Char × List Char × List Char × List Char) :=
  match takeLitCI (strChars "<style") s with
  | none => none
  | some (tk, s1) =>
    let tagBody := s1.takeWhile (fun c => c != '>')
    match s1.dropWhile (fun c => c != '>') with
    | '>' :: s3 =>
      match splitFirstCI (strChars "</style>") s3.length s3 with
      | some (content, closeTk, rest) =>
        some (tk ++ tagBody ++ ['>'], content, closeTk, rest)
      | none => none
    | _ => none

/-- Characters allowed by the declaration-value class `[^;\x7d]` (everything
except a semicolon and a closing brace). -/
def declValChar (c : Char) : Bool := c != ';' && c.toNat != 125

/-- Match `(prop)(?!-)\s*:\s*([^;\x7d]+)` (flags `gi`) at the head of `s`:
returns the full matched text, the captured value and the rest.  When all
characters after the colon up to the class boundary are whitespace, the
greedy `\s*` backtracks one character so the one-or-more class still
matches — exactly the JavaScript behaviour. -/
def matchDeclAt (prop : List Char) (s : List Char) :
    Option (List Char × List Char × List Char × List Char) :=
  match takeLitCI prop s with
  | none => none
  | some (propTk, s1) =>
    match s1 with
    | '-' :: _ => none
    | _ =>
      let ws1 := s1.takeWhile isWsChar
      match s1.dropWhile isWsChar with
      | ':' :: s3 =>
        let chunk := s3.takeWhile declValChar
        let rest := s3.dropWhile declValChar
        let v := chunk.dropWhile isWsChar
        let matchText := propTk ++ ws1 ++ [':'] ++ chunk
        if v.isEmpty then
          match chunk.getLast? with
          | some lastC => some (matchText, propTk, [lastC], rest)
          | none => none
        else some (matchText, propTk, v, rest)
      | _ => none

/-- The inner global scan of `replaceStyleBlocks` over one block content. -/
def scanDecls (prop color : List Char) (preserveNone : Bool) :
    Nat → List Char → List Char
  | _, [] => []
  | 0, s => s
  | fuel + 1, c :: cs =>
    match matchDeclAt prop (c :: cs) with
    | some (mt, propTk, v, rest) =>
      if preserveNone ∧ lowerStr (jsTrim v) = strChars "none" ∧
          ¬ lowerStr (jsTrim color) = strChars "none" then
        mt ++ scanDecls prop color preserveNone fuel rest
      else
        (propTk ++ [':'] ++ color) ++ scanDecls prop color preserveNone fuel rest
    | none => c :: scanDecls prop color preserveNone fuel cs

/-- `str.replace(pat, repl)` with a plain-string pattern: the first
case-sensitive occurrence of `pat` is replaced.  (The `$`-escape sequences
of JavaScript replacement strings are not interpreted; no input exercised by
the claims produces them.) -/
def replaceFirstSub : Nat → List Char → List Char → List Char → List Char
  | _, [], pat, repl => if pat.isEmpty then repl else []
  | 0, s, _, _ => s
  | fuel + 1, c :: cs, pat, repl =>
    if isPrefixOf pat (c :: cs) then repl ++ (c :: cs).drop pat.length
    else c :: replaceFirstSub fuel cs pat repl

/-- The replacement callback of `replaceStyleBlocks` applied to one matched
`<style>` block. -/
def processStyleBlock (prop color : List Char) (preserveNone : Bool)
    (openTk content closeTk : List Char) : List Char :=
  let updated := scanDecls prop color preserveNone content.length content
  if updated = content then openTk ++ content ++ closeTk
  else
    let m := openTk ++ content ++ closeTk
    replaceFirstSub m.length m content updated

/-- The outer global scan of `replaceStyleBlocks`. -/
def scanStyleBlocks (prop color : List Char) (preserveNone : Bool) :
    Nat → List Char → List Char
  | _, [] => []
  | 0, s => s
  | fuel + 1, c :: cs =>
    match matchStyleBlockAt (c :: cs) with
    | some (openTk, content, closeTk, rest) =>
      processStyleBlock prop color preserveNone openTk content closeTk ++
        scanStyleBlocks prop color preserveNone fuel rest
    | none => c :: scanStyleBlocks prop color preserveNone fuel cs

/-- `replaceStyleBlocks` of `svgColorizer.ts`. -/
def replaceStyleBlocks (svgContent prop color : List Char)
    (preserveNone : Bool) : List Char :=
  scanStyleBlocks prop color preserveNone svgContent.length svgContent

/-- `applyColor` of `svgColorizer.ts`: the three passes in source order. -/
def applyColor (svgContent prop color : List Char) (preserveNone : Bool) :
    List Char :=
  replaceStyleBlocks
    (replaceInlineStyleAttributes
      (replaceSvgAttributes svgContent prop color preserveNone)
      prop color preserveNone)
    prop color preserveNone

/-- `interface RecolorOptions` of `svgColorizer.ts` (`Option` models the
optional fields). -/
structure RecolorOptions where
  fill : Option (List Char) := none
  stroke : Option (List Char) := none
  preserveFillNone : Option Bool := none
  preserveStrokeNone : Option Bool := none

/-- JavaScript truthiness of an optional string (`undefined` and `""` are
falsy). -/
def strTruthy : Option (List Char) → Bool
  | none => false
  | some s => !s.isEmpty

/-- `recolorVivaldiSvg` of `svgColorizer.ts`. -/
def recolorVivaldiSvg (svgContent : List Char) (options : RecolorOptions) :
    List Char :=
  let preserveFillNone := options.preserveFillNone.getD true
  let preserveStrokeNone := options.preserveStrokeNone.getD true
  let out1 :=
    if strTruthy options.fill then
      applyColor svgContent (strChars "fill") (options.fill.getD []) preserveFillNone
    else svgContent
  if strTruthy options.stroke then
    applyColor out1 (strChars "stroke") (options.stroke.getD []) preserveStrokeNone
  else out1

/-! ### `src/lib/vivaldiIconMaker.ts` -/

/-- Decimal digit test. -/
def isDigitChar (c : Char) : Bool := 48 ≤ c.toNat && c.toNat ≤ 57

/-- Value of a decimal digit character. -/
def digitVal (c : Char) : Nat := c.toNat - 48

/-- Value of a run of decimal digits. -/
def natOfDigits (ds : List Char) : ℕ :=
  ds.foldl (fun a c => 10 * a + digitVal c) 0

/-- `Number(str)` on decimal literals: optional sign, integer and/or
fraction digits, optional exponent; the empty (trimmed) string is 0 and
anything else is `none` (NaN).  The grammar accepted here is a subset of
the JavaScript one, with identical values on it: the exotic literal forms
`Infinity`/hex/octal/binary, which `Number` accepts, also map to `none`.
A theorem whose truth depends on the branch `extractViewBox` takes must
therefore restrict itself to inputs where this parser succeeds (then the
program's does too, with the same values) or where no `viewBox` attribute
matches at all. -/
def jsNumber (s : List Char) : Option ℚ :=
  let t := jsTrim s
  if t.isEmpty then some 0
  else
    let signed : ℚ × List Char :=
      match t with
      | '-' :: r => (-1, r)
      | '+' :: r => (1, r)
      | _ => (1, t)
    let sign := signed.1
    let t1 := signed.2
    let ip := t1.takeWhile isDigitChar
    let r1 := t1.dropWhile isDigitChar
    let frac : List Char × List Char :=
      match r1 with
      | '.' :: r => (r.takeWhile isDigitChar, r.dropWhile isDigitChar)
      | _ => ([], r1)
    let fp := frac.1
    let r2 := frac.2
    if ip.isEmpty ∧ fp.isEmpty then none
    else
      let mantissa : ℚ := (natOfDigits ip : ℚ) + (natOfDigits fp : ℚ) / ((10 ^ fp.length : ℕ) : ℚ)
      match r2 with
      | [] => some (sign * mantissa)
      | e :: r3 =>
        if e = 'e' ∨ e = 'E' then
          let esigned : ℤ × List Char :=
            match r3 with
            | '-' :: r => (-1, r)
            | '+' :: r => (1, r)
            | _ => (1, r3)
          let ed := esigned.2.takeWhile isDigitChar
          let r5 := esigned.2.dropWhile isDigitChar
          if ed.isEmpty ∨ ¬ r5.isEmpty then none
          else some (sign * mantissa * (10 : ℚ) ^ (esigned.1 * (natOfDigits ed : ℤ)))
        else none

/-- Words of an already-trimmed text, as `trimmed.split(/\s+/)` produces
them (`[""]` on empty input, as in JavaScript). -/
def wordsAux : Nat → List Char → List (List Char)
  | _, [] => []
  | 0, s => [s]
  | fuel + 1, s =>
    let w := s.takeWhile (fun c => !isWsChar c)
    let r := (s.dropWhile (fun c => !isWsChar c)).dropWhile isWsChar
    if r.isEmpty then [w] else w :: wordsAux fuel r

/-- `trimmed.split(/\s+/)` for trimmed text. -/
def splitWsTrimmed (s : List Char) : List (List Char) :=
  if s.isEmpty then [[]] else wordsAux s.length s

/-- `interface ViewBoxValues` of `vivaldiIconMaker.ts`. -/
structure ViewBoxValues where
  minX : ℚ
  minY : ℚ
  width : ℚ
  height : ℚ
deriving DecidableEq, Repr

/-- Match `viewBox="([^"]+)"` (flag `i`) at the head of `s`, returning the
capture. -/
def matchViewBoxAt (s : List Char) : Option (List Char) :=
  match takeLitCI (strChars "viewBox=\"") s with
  | none => none
  | some (_, s1) =>
    let v := s1.takeWhile (fun c => c != '"')
    if v.isEmpty then none
    else
      match s1.dropWhile (fun c => c != '"') with
      | '"' :: _ => some v
      | _ => none

/-- Leftmost match of the `viewBox` pattern. -/
def findViewBox : Nat → List Char → Option (List Char)
  | _, [] => none
  | 0, _ => none
  | fuel + 1, c :: cs =>
    match matchViewBoxAt (c :: cs) with
    | some v => some v
    | none => findViewBox fuel cs

/-- `extractViewBox` of `vivaldiIconMaker.ts`. -/
def extractViewBox (svgContent : List Char) : Option ViewBoxValues :=
  match findViewBox svgContent.length svgContent with
  | none => none
  | some raw =>
    match (splitWsTrimmed (jsTrim raw)).map jsNumber with
    | [some a, some b, some c, some d] => some ⟨a, b, c, d⟩
    | _ => none

/-- Decimal digits of a natural number. -/
def natDecAux : Nat → Nat → List Char → List Char
  | 0, _, acc => acc
  | fuel + 1, n, acc =>
    if n < 10 then Char.ofNat (48 + n) :: acc
    else natDecAux fuel (n / 10) (Char.ofNat (48 + n % 10) :: acc)

/-- Decimal rendering of a natural number. -/
def natDecStr (n : Nat) : List Char := natDecAux (n + 1) n []

/-- Decimal rendering of an integer. -/
def intDecStr (i : ℤ) : List Char :=
  if i < 0 then '-' :: natDecStr (-i).toNat else natDecStr i.toNat

/-- `value.toFixed(d)`: fixed-point rendering with `d` fractional digits,
rounding half away from zero. -/
def jsToFixed (q : ℚ) (d : Nat) : List Char :=
  let scaled : ℤ := if q < 0 then -(jsRound (-q * 10 ^ d)) else jsRound (q * 10 ^ d)
  let n := scaled.natAbs
  let ds := natDecStr n
  let padded := if ds.length < d + 1 then List.replicate (d + 1 - ds.length) '0' ++ ds else ds
  let ip := padded.take (padded.length - d)
  let fp := padded.drop (padded.length - d)
  let core := if d = 0 then ip else ip ++ ['.'] ++ fp
  if scaled < 0 then '-' :: core else core

/-- `Number.isInteger`. -/
def ratIsInt (q : ℚ) : Bool := q.den == 1

/-- `formatNumber` of `vivaldiIconMaker.ts`: integral values plain, others
`toFixed(4)` with the trailing zeros and a trailing point stripped. -/
def formatNumber (value : ℚ) : List Char :=
  if ratIsInt value then intDecStr value.num
  else
    let s := jsToFixed value 4
    let s1 := (s.reverse.dropWhile (fun c => c == '0')).reverse
    if s1.getLast? = some '.' then s1.dropLast else s1

/-- Rendering of a number by `${...}` template interpolation.  JavaScript
prints integral doubles as plain integers — the only shape the pipeline
feeds to the corner-radius slots; non-integral values are rendered as
fixed-point with four fractional digits in this model. -/
def numToStr (q : ℚ) : List Char :=
  if ratIsInt q then intDecStr q.num else jsToFixed q 4

/-- `INACTIVE_BACKGROUND_MARKER` of `vivaldiIconMaker.ts`. -/
def inactiveBgMarker : List Char := strChars "data-vivaldi-inactive-bg=\"true\""

/-- `buildInsetRectFromViewBox` of `vivaldiIconMaker.ts`. -/
def buildInsetRectFromViewBox (viewBox : ViewBoxValues) (color : List Char)
    (cornerRadius insetRatio : ℚ) : List Char :=
  let clampedInset := clampRatio insetRatio
  let newWidth := viewBox.width * (1 - clampedInset)
  let newHeight := viewBox.height * (1 - clampedInset)
  let offsetX := viewBox.minX + (viewBox.width - newWidth) / 2
  let offsetY := viewBox.minY + (viewBox.height - newHeight) / 2
  strChars "<rect " ++ inactiveBgMarker ++ strChars " x=\"" ++ formatNumber offsetX ++
    strChars "\" y=\"" ++ formatNumber offsetY ++ strChars "\" width=\"" ++
    formatNumber newWidth ++ strChars "\" height=\"" ++ formatNumber newHeight ++
    strChars "\" rx=\"" ++ numToStr cornerRadius ++ strChars "\" ry=\"" ++
    numToStr cornerRadius ++ strChars "\" fill=\"" ++ color ++ strChars "\"/>"

/-- `buildInsetRectWithPercent` of `vivaldiIconMaker.ts`. -/
def buildInsetRectWithPercent (color : List Char)
    (cornerRadius insetRatio : ℚ) : List Char :=
  let insetPercent := jsToFixed (insetRatio * 100 / 2) 2
  let sizePercent := jsToFixed (100 - insetRatio * 100) 2
  strChars "<rect " ++ inactiveBgMarker ++ strChars " x=\"" ++ insetPercent ++
    strChars "%\" y=\"" ++ insetPercent ++ strChars "%\" width=\"" ++ sizePercent ++
    strChars "%\" height=\"" ++ sizePercent ++ strChars "%\" rx=\"" ++
    numToStr cornerRadius ++ strChars "\" ry=\"" ++ numToStr cornerRadius ++
    strChars "\" fill=\"" ++ color ++ strChars "\"/>"

/-- Match `<rect[^>]*MARKER[^>]*\/>` (flag `i`) at the head of `s`.  With
greedy pieces and backtracking, a match at the head exists exactly when the
text begins with `<rect` (case-insensitively), some `>` follows, the
character right before that first `>` is `/`, and the marker occurs
case-insensitively in between (the marker ends in `"`, so no occurrence can
overlap the `/`); the match extends to that first `>`. -/
def matchRectAt (s : List Char) : Option (List Char × List Char) :=
  match takeLitCI (strChars "<rect") s with
  | none => none
  | some (tk, s1) =>
    let body := s1.takeWhile (fun c => c != '>')
    match s1.dropWhile (fun c => c != '>') with
    | '>' :: rest =>
      if body.getLast? = some '/' ∧ containsSubCI inactiveBgMarker body = true then
        some (tk ++ body ++ ['>'], rest)
      else none
    | _ => none

/-- Leftmost match of the marked-rectangle pattern: `some (pre, m, rest)`
with the input equal to `pre ++ m ++ rest`. -/
def findRect : Nat → List Char → Option (List Char × List Char × List Char)
  | _, [] => none
  | 0, _ => none
  | fuel + 1, c :: cs =>
    match matchRectAt (c :: cs) with
    | some (m, rest) => some ([], m, rest)
    | none =>
      match findRect fuel cs with
      | some (pre, m, rest) => some (c :: pre, m, rest)
      | none => none

/-- Match `<svg[^>]*>` (flag `i`) at the head of `s`. -/
def matchSvgOpenAt (s : List Char) : Option (List Char × List Char) :=
  match takeLitCI (strChars "<svg") s with
  | none => none
  | some (tk, s1) =>
    let body := s1.takeWhile (fun c => c != '>')
    match s1.dropWhile (fun c => c != '>') with
    | '>' :: rest => some (tk ++ body ++ ['>'], rest)
    | _ => none

/-- Leftmost match of the `<svg…>` open-tag pattern (the matched text). -/
def findSvgOpen : Nat → List Char → Option (List Char)
  | _, [] => none
  | 0, _ => none
  | fuel + 1, c :: cs =>
    match matchSvgOpenAt (c :: cs) with
    | some (m, _) => some m
    | none => findSvgOpen fuel cs

/-- `GetSubstitution` of `String.prototype.replace` for a pattern that has
no capture groups and no named groups (the marker-rectangle pattern):
`$$` yields `$`, `$&` the matched text `m`, ``$` `` the text `pre` before
the match, `$'` the text `post` after it; `$` followed by anything else —
including digits, since there is no capture to refer to — stays literal. -/
def getSubst (m pre post : List Char) : Nat → List Char → List Char
  | _, [] => []
  | 0, s => s
  | fuel + 1, c :: t =>
    if c = '$' then
      match t with
      | [] => ['$']
      | d :: t2 =>
        if d = '$' then '$' :: getSubst m pre post fuel t2
        else if d = '&' then m ++ getSubst m pre post fuel t2
        else if d = Char.ofNat 96 then pre ++ getSubst m pre post fuel t2
        else if d = Char.ofNat 39 then post ++ getSubst m pre post fuel t2
        else '$' :: getSubst m pre post fuel (d :: t2)
    else c :: getSubst m pre post fuel t

/-- `addOrUpdateBackgroundRect` of `vivaldiIconMaker.ts`.  The
`replace(rectPattern, rectElement)` call applies the `$`-escape
substitution of JavaScript replacement strings, modelled by `getSubst`
(the pattern has no capture groups).  The insertion branch splices its
replacement verbatim via `replaceFirstSub`, whose documented
simplification (no `$`-escape interpretation) it inherits. -/
def addOrUpdateBackgroundRect (svgContent color : List Char)
    (cornerRadius insetRatio : ℚ) : Except JsError (List Char) :=
  let clampedInset := clampRatio insetRatio
  let rectElement :=
    match extractViewBox svgContent with
    | some viewBox => buildInsetRectFromViewBox viewBox color cornerRadius clampedInset
    | none => buildInsetRectWithPercent color cornerRadius clampedInset
  match findRect svgContent.length svgContent with
  | some (pre, m, rest) =>
    .ok (pre ++ getSubst m pre rest rectElement.length rectElement ++ rest)
  | none =>
    match findSvgOpen svgContent.length svgContent with
    | none => .error .invalidSvgDocument
    | some svgOpenTag =>
      .ok (replaceFirstSub svgContent.length svgContent svgOpenTag
        (svgOpenTag ++ strChars "\n  " ++ rectElement))

/-- `ensureValidSvg` of `vivaldiIconMaker.ts`
(`!content || !content.includes("<svg")`). -/
def ensureValidSvg (content : List Char) : Except JsError Unit :=
  if content.isEmpty ∨ ¬ containsSub (strChars "<svg") content = true then
    .error .invalidSvgDocument
  else .ok ()

/-- `transformInactiveColor` of `vivaldiIconMaker.ts`. -/
def transformInactiveColor (color : Option (List Char)) (mix : ℚ) :
    Except JsError (Option (List Char)) :=
  match color with
  | none => .ok none
  | some c =>
    if c.isEmpty ∨ lowerStr (jsTrim c) = strChars "none" then .ok (some c)
    else (createInactiveColor c mix).map some

/-- `DEFAULT_INACTIVE_MIX`. -/
def defaultInactiveMix : ℚ := 1 / 2

/-- `DEFAULT_INACTIVE_CORNER_RADIUS`. -/
def defaultInactiveCornerRadius : ℚ := 6

/-- `DEFAULT_INACTIVE_INSET_RATIO`. -/
def defaultInactiveInsetRatio : ℚ := 1 / 10

/-- `clampUnitRange` of `vivaldiIconMaker.ts` (its `NaN` branch cannot arise
in the `ℚ` model). -/
def clampUnitRange (value : ℚ) : ℚ := min (max value 0) 1

/-- `normalizeColor` of `vivaldiIconMaker.ts`. -/
def normalizeColor (color : Option (List Char)) : Option (List Char) :=
  match color with
  | none => none
  | some c =>
    if c.isEmpty then none
    else if lowerStr (jsTrim c) = strChars "none" then none
    else some c

/-- `pickPrimaryColor` of `vivaldiIconMaker.ts`. -/
def pickPrimaryColor (fill stroke : Option (List Char)) : Option (List Char) :=
  match normalizeColor fill with
  | some f => some f
  | none => normalizeColor stroke

/-- `interface GenerateVariantsOptions` of `vivaldiIconMaker.ts`. -/
structure GenerateVariantsOptions where
  svgContent : List Char
  fill : Option (List Char) := none
  stroke : Option (List Char) := none
  preserveFillNone : Option Bool := none
  preserveStrokeNone : Option Bool := none
  generateInactive : Option Bool := none
  inactiveMix : Option ℚ := none
  inactiveCornerRadius : Option ℚ := none
  inactiveBackgroundInsetRatio : Option ℚ := none

/-- `interface IconVariant` of `vivaldiIconMaker.ts`. -/
structure IconVariant where
  name : List Char
  svg : List Char
  fill : Option (List Char) := none
  stroke : Option (List Char) := none
  backgroundColor : Option (List Char) := none
deriving DecidableEq, Repr

/-- `generateIconVariants` of `vivaldiIconMaker.ts`. -/
def generateIconVariants (options : GenerateVariantsOptions) :
    Except JsError (List IconVariant) := do
  let svgContent := options.svgContent
  let fill := options.fill
  let stroke := options.stroke
  let preserveFillNone := options.preserveFillNone.getD true
  let preserveStrokeNone := options.preserveStrokeNone.getD true
  let generateInactive := options.generateInactive.getD true
  let inactiveMix := options.inactiveMix.getD defaultInactiveMix
  let inactiveCornerRadius := options.inactiveCornerRadius.getD defaultInactiveCornerRadius
  let inactiveBackgroundInsetRatio :=
    options.inactiveBackgroundInsetRatio.getD defaultInactiveInsetRatio
  let _ ← ensureValidSvg svgContent
  let primaryColor := pickPrimaryColor fill stroke
  let normalizedInactiveMix := clampUnitRange inactiveMix
  let safeCornerRadius := max 0 inactiveCornerRadius
  let activeSvg := recolorVivaldiSvg svgContent
    { fill := fill, stroke := stroke,
      preserveFillNone := some preserveFillNone,
      preserveStrokeNone := some preserveStrokeNone }
  let activeVariant : IconVariant :=
    { name := strChars "active", svg := activeSvg, fill := fill, stroke := stroke }
  if generateInactive then
    let inactiveFill ← transformInactiveColor fill normalizedInactiveMix
    let inactiveStroke ← transformInactiveColor stroke normalizedInactiveMix
    let backgroundColor ← (
      match primaryColor with
      | some pc => (createInactiveBackgroundColor pc normalizedInactiveMix).map some
      | none => pure none : Except JsError (Option (List Char)))
    let inactiveSvg0 := recolorVivaldiSvg svgContent
      { fill := inactiveFill, stroke := inactiveStroke,
        preserveFillNone := some preserveFillNone,
        preserveStrokeNone := some preserveStrokeNone }
    let inactiveSvg ←
      if strTruthy backgroundColor then
        addOrUpdateBackgroundRect inactiveSvg0 (backgroundColor.getD [])
          safeCornerRadius inactiveBackgroundInsetRatio
      else pure inactiveSvg0
    return [activeVariant,
      { name := strChars "inactive", svg := inactiveSvg,
        fill := inactiveFill, stroke := inactiveStroke,
        backgroundColor := backgroundColor }]
  else
    return [activeVariant]

/-- The recolouring applied for the active variant. -/
def activeRecolor (o : GenerateVariantsOptions) : List Char :=
  recolorVivaldiSvg o.svgContent
    { fill := o.fill, stroke := o.stroke,
      preserveFillNone := some (o.preserveFillNone.getD true),
      preserveStrokeNone := some (o.preserveStrokeNone.getD true) }

/-- The recolouring applied for the inactive variant, given the derived
inactive colours. -/
def inactiveRecolor (o : GenerateVariantsOptions)
    (inactiveFill inactiveStroke : Option (List Char)) : List Char :=
  recolorVivaldiSvg o.svgContent
    { fill := inactiveFill, stroke := inactiveStroke,
      preserveFillNone := some (o.preserveFillNone.getD true),
      preserveStrokeNone := some (o.preserveStrokeNone.getD true) }

/-- The two recolourable property names. -/
inductive PropName where
  | fill
  | stroke
deriving DecidableEq, Repr

/-- The property name as text. -/
def propStr : PropName → List Char
  | .fill => strChars "fill"
  | .stroke => strChars "stroke"

/-- Characters allowed in a canonical attribute value (colour text). -/
def okValChar (c : Char) : Bool :=
  decide (c ∈ strChars "#0123456789abcdefABCDEF noeNOE")

/-- Characters allowed in a plain segment. -/
def okRawChar (c : Char) : Bool := !decide (c ∈ strChars "fFsS")

/-- One segment of a structured SVG text. -/
inductive Seg where
  | raw (t : List Char)
  | attr (p : PropName) (v : List Char)
deriving DecidableEq, Repr

/-- The text of one segment. -/
def renderSeg : Seg → List Char
  | .raw t => t
  | .attr p v => propStr p ++ strChars "=\"" ++ v ++ ['"']

/-- The text of a structured SVG document. -/
def renderSegs (segs : List Seg) : List Char :=
  (segs.map renderSeg).join

/-- Well-formedness of one segment. -/
def okSeg : Seg → Prop
  | .raw t => t ≠ [] ∧ ∀ c ∈ t, okRawChar c = true
  | .attr _ v => ∀ c ∈ v, okValChar c = true

instance decOkSeg : DecidablePred okSeg := fun sg => by
  cases sg <;> simp only [okSeg] <;> infer_instance

/-- Well-formedness of a structured SVG document. -/
def okSegs (segs : List Seg) : Prop := ∀ sg ∈ segs, okSeg sg

instance decOkSegs : DecidablePred okSegs := fun segs =>
  List.decidableBAll _ segs

/-- Colour arguments drawn from the same colour characters (every valid hex
colour and every casing of `none` qualifies). -/
def okColor (color : List Char) : Prop := ∀ c ∈ color, okValChar c = true

instance decOkColor : DecidablePred okColor := fun color =>
  List.decidableBAll _ color

/-- The per-segment effect of one recolouring request on the family. -/
def updSeg (p : PropName) (color : List Char) (preserveNone : Bool) : Seg → Seg
  | .raw t => .raw t
  | .attr q v =>
    if q = p then
      if preserveNone ∧ lowerStr (jsTrim v) = strChars "none" ∧
          ¬ lowerStr (jsTrim color) = strChars "none" then .attr q v
      else .attr q color
    else .attr q v

/-! #### Pattern-start certificates -/

/-- Every nonempty suffix of `chunk`, extended by the continuation `R`,
satisfies `P` (read: no pattern match starts inside `chunk`). -/
def NoStartF (P : List Char → Prop) (chunk R : List Char) : Prop :=
  ∀ a b, chunk = a ++ b → b ≠ [] → P (b ++ R)

/-! #### No style-block match starts anywhere in the rendered family -/

def LtOk (R : List Char) : Prop := takeLitCI (strChars "style") R = none

/-! #### The built rectangles match the marked-rectangle pattern -/

def rectMidVB (vb : ViewBoxValues) (color : List Char) (r i : ℚ) : List Char :=
  strChars " " ++ inactiveBgMarker ++ strChars " x=\"" ++
    formatNumber (vb.minX + (vb.width - vb.width * (1 - clampRatio i)) / 2) ++
    strChars "\" y=\"" ++
    formatNumber (vb.minY + (vb.height - vb.height * (1 - clampRatio i)) / 2) ++
    strChars "\" width=\"" ++ formatNumber (vb.width * (1 - clampRatio i)) ++
    strChars "\" height=\"" ++ formatNumber (vb.height * (1 - clampRatio i)) ++
    strChars "\" rx=\"" ++ numToStr r ++ strChars "\" ry=\"" ++ numToStr r ++
    strChars "\" fill=\"" ++ color ++ strChars "\"/"

def rectMidPct (color : List Char) (r i : ℚ) : List Char :=
  strChars " " ++ inactiveBgMarker ++ strChars " x=\"" ++
    jsToFixed (i * 100 / 2) 2 ++ strChars "%\" y=\"" ++
    jsToFixed (i * 100 / 2) 2 ++ strChars "%\" width=\"" ++
    jsToFixed (100 - i * 100) 2 ++ strChars "%\" height=\"" ++
    jsToFixed (100 - i * 100) 2 ++ strChars "%\" rx=\"" ++ numToStr r ++
    strChars "\" ry=\"" ++ numToStr r ++ strChars "\" fill=\"" ++ color ++
    strChars "\"/"

/-! ### Arithmetic and character facts used by the colour theorems -/

theorem hexDigitVal_lt (c : Char) : hexDigitVal c < 16 := by
  unfold hexDigitVal
  split_ifs <;>
    first
      | omega
      | (rename_i h; simp only [Bool.and_eq_true, decide_eq_true_iff] at h; omega)

theorem isHexDigit_toNat {c : Char} (h : isHexDigit c = true) :
    (48 ≤ c.toNat ∧ c.toNat ≤ 57) ∨ (97 ≤ c.toNat ∧ c.toNat ≤ 102) ∨
      (65 ≤ c.toNat ∧ c.toNat ≤ 70) := by
  simpa [isHexDigit, Bool.or_eq_true, Bool.and_eq_true, decide_eq_true_iff,
    or_assoc] using h

theorem isWsChar_eq_false_of_hexDigit {c : Char} (h : isHexDigit c = true) :
    isWsChar c = false := by
  have hn := isHexDigit_toNat h
  simp only [isWsChar, Bool.or_eq_false_iff, beq_eq_false_iff_ne, ne_eq]
  omega

theorem dropWhile_eq_self_of_head {p : Char → Bool} :
    ∀ {s : List Char}, (∀ c ∈ s, p c = false) → s.dropWhile p = s
  | [], _ => rfl
  | c :: cs, h => by
    have := h c (by simp)
    simp [List.dropWhile, this]

theorem jsTrim_eq_self {s : List Char} (h : ∀ c ∈ s, isWsChar c = false) :
    jsTrim s = s := by
  unfold jsTrim
  rw [dropWhile_eq_self_of_head h, dropWhile_eq_self_of_head, List.reverse_reverse]
  intro c hc
  exact h c (by simpa using hc)

theorem jsParseIntHex_nonneg (s : List Char) : 0 ≤ jsParseIntHex s := by
  unfold jsParseIntHex
  positivity

theorem jsParseIntHex_pair (a b : Char) (ha : isHexDigit a = true)
    (hb : isHexDigit b = true) :
    jsParseIntHex [a, b] = ((16 * hexDigitVal a + hexDigitVal b : ℕ) : ℚ) := by
  unfold jsParseIntHex
  simp [List.takeWhile, ha, hb, List.foldl]

theorem hexFold_lt (l : List Char) : ∀ acc : ℕ,
    l.foldl (fun acc c => 16 * acc + hexDigitVal c) acc < (acc + 1) * 16 ^ l.length := by
  induction l with
  | nil => intro acc; simp
  | cons c cs ih =>
    intro acc
    have hv := hexDigitVal_lt c
    calc (c :: cs).foldl (fun acc c => 16 * acc + hexDigitVal c) acc
        = cs.foldl (fun acc c => 16 * acc + hexDigitVal c) (16 * acc + hexDigitVal c) := rfl
      _ < (16 * acc + hexDigitVal c + 1) * 16 ^ cs.length := ih _
      _ ≤ ((acc + 1) * 16) * 16 ^ cs.length := by
          have h : 16 * acc + hexDigitVal c + 1 ≤ (acc + 1) * 16 := by omega
          exact Nat.mul_le_mul_right _ h
      _ = (acc + 1) * 16 ^ (c :: cs).length := by
          rw [List.length_cons, pow_succ]; ring

theorem takeWhile_length_le (p : Char → Bool) :
    ∀ s : List Char, (s.takeWhile p).length ≤ s.length
  | [] => le_rfl
  | c :: cs => by
    cases h : p c <;> simp [List.takeWhile, h]
    exact takeWhile_length_le p cs

theorem jsParseIntHex_le_255 {s : List Char} (h : s.length ≤ 2) :
    jsParseIntHex s ≤ 255 := by
  unfold jsParseIntHex
  have h1 : (s.takeWhile isHexDigit).length ≤ 2 :=
    le_trans (takeWhile_length_le _ _) h
  have h2 := hexFold_lt (s.takeWhile isHexDigit) 0
  have h3 : (16 : ℕ) ^ (s.takeWhile isHexDigit).length ≤ 16 ^ 2 :=
    Nat.pow_le_pow_right (by norm_num) h1
  have h4 : (s.takeWhile isHexDigit).foldl
      (fun acc c => 16 * acc + hexDigitVal c) 0 ≤ 255 := by omega
  exact_mod_cast h4

theorem parseShortHex_channels (v : List Char) :
    (0 ≤ (parseShortHex v).r ∧ (parseShortHex v).r ≤ 255) ∧
      (0 ≤ (parseShortHex v).g ∧ (parseShortHex v).g ≤ 255) ∧
      (0 ≤ (parseShortHex v).b ∧ (parseShortHex v).b ≤ 255) := by
  unfold parseShortHex
  split
  all_goals
    refine ⟨⟨?_, ?_⟩, ⟨?_, ?_⟩, ⟨?_, ?_⟩⟩ <;>
      first
        | exact jsParseIntHex_nonneg _
        | exact jsParseIntHex_le_255 (by norm_num)
        | norm_num

theorem parseLongHex_channels (v : List Char) :
    (0 ≤ (parseLongHex v).r ∧ (parseLongHex v).r ≤ 255) ∧
      (0 ≤ (parseLongHex v).g ∧ (parseLongHex v).g ≤ 255) ∧
      (0 ≤ (parseLongHex v).b ∧ (parseLongHex v).b ≤ 255) := by
  unfold parseLongHex
  refine ⟨⟨jsParseIntHex_nonneg _, jsParseIntHex_le_255 ?_⟩,
    ⟨jsParseIntHex_nonneg _, jsParseIntHex_le_255 ?_⟩,
    ⟨jsParseIntHex_nonneg _, jsParseIntHex_le_255 ?_⟩⟩ <;>
  exact le_trans (List.length_take_le _ _) (by norm_num)

theorem parseHexColor_def (hex : List Char) :
    parseHexColor hex =
      if ¬ ((stripHash (jsTrim hex)).length = 3 ∨ (stripHash (jsTrim hex)).length = 4 ∨
            (stripHash (jsTrim hex)).length = 6 ∨ (stripHash (jsTrim hex)).length = 8) then
        .error .invalidColor
      else if (stripHash (jsTrim hex)).length = 3 ∨ (stripHash (jsTrim hex)).length = 4 then
        .ok (parseShortHex (stripHash (jsTrim hex)))
      else
        .ok (parseLongHex (stripHash (jsTrim hex))) := rfl

theorem parseHexColor_channels {x : List Char} {c : Rgba}
    (h : parseHexColor x = .ok c) :
    (0 ≤ c.r ∧ c.r ≤ 255) ∧ (0 ≤ c.g ∧ c.g ≤ 255) ∧ (0 ≤ c.b ∧ c.b ≤ 255) := by
  rw [parseHexColor_def] at h
  split_ifs at h
  all_goals
    simp only [Except.ok.injEq] at h
    subst h
    first
      | exact parseShortHex_channels _
      | exact parseLongHex_channels _

theorem rgbToHsl_s_def (c : Rgba) :
    (rgbToHsl c).s =
      if max (c.r / 255) (max (c.g / 255) (c.b / 255)) -
          min (c.r / 255) (min (c.g / 255) (c.b / 255)) = 0 then 0
      else
        (max (c.r / 255) (max (c.g / 255) (c.b / 255)) -
            min (c.r / 255) (min (c.g / 255) (c.b / 255))) /
          (1 - |2 * ((max (c.r / 255) (max (c.g / 255) (c.b / 255)) +
              min (c.r / 255) (min (c.g / 255) (c.b / 255))) / 2) - 1|) := rfl

theorem rgbToHsl_l_def (c : Rgba) :
    (rgbToHsl c).l =
      (max (c.r / 255) (max (c.g / 255) (c.b / 255)) +
        min (c.r / 255) (min (c.g / 255) (c.b / 255))) / 2 := rfl

theorem rgbToHsl_s_nonneg {c : Rgba}
    (h : (0 ≤ c.r ∧ c.r ≤ 255) ∧ (0 ≤ c.g ∧ c.g ≤ 255) ∧ (0 ≤ c.b ∧ c.b ≤ 255)) :
    0 ≤ (rgbToHsl c).s := by
  obtain ⟨⟨hr0, hr1⟩, ⟨hg0, hg1⟩, ⟨hb0, hb1⟩⟩ := h
  rw [rgbToHsl_s_def]
  set r := c.r / 255 with hrdef
  set g := c.g / 255 with hgdef
  set b := c.b / 255 with hbdef
  have hr : 0 ≤ r ∧ r ≤ 1 :=
    ⟨by positivity, div_le_one_of_le₀ hr1 (by norm_num)⟩
  have hg : 0 ≤ g ∧ g ≤ 1 :=
    ⟨by positivity, div_le_one_of_le₀ hg1 (by norm_num)⟩
  have hb : 0 ≤ b ∧ b ≤ 1 :=
    ⟨by positivity, div_le_one_of_le₀ hb1 (by norm_num)⟩
  set maxC := max r (max g b) with hmax
  set minC := min r (min g b) with hmin
  have hmax1 : maxC ≤ 1 := max_le hr.2 (max_le hg.2 hb.2)
  have hmin0 : 0 ≤ minC := le_min hr.1 (le_min hg.1 hb.1)
  have hminmax : minC ≤ maxC :=
    le_trans (min_le_left _ _) (le_max_left _ _)
  split
  · exact le_rfl
  · next hδ =>
    have hlt : minC < maxC := by
      rcases lt_or_eq_of_le hminmax with h | h
      · exact h
      · exact absurd (by rw [h]; ring) hδ
    have hsum0 : 0 < maxC + minC := by
      have : 0 < maxC := lt_of_le_of_lt hmin0 hlt
      linarith
    have hsum2 : maxC + minC < 2 := by
      have : minC < 1 := lt_of_lt_of_le hlt hmax1
      linarith
    have hden : 0 < 1 - |2 * ((maxC + minC) / 2) - 1| := by
      have habs : |2 * ((maxC + minC) / 2) - 1| < 1 := by
        rw [abs_lt]; constructor <;> nlinarith
      linarith
    exact div_nonneg (by linarith) (le_of_lt hden)

/-! ### Digit-level facts for the colour round trip -/

theorem ratToByteNat_natCast (n : ℕ) : ratToByteNat ((n : ℚ)) = n := by
  unfold ratToByteNat
  rw [Int.floor_natCast, Int.toNat_natCast]

theorem jsRound_natCast (n : ℕ) : jsRound ((n : ℚ)) = (n : ℤ) := by
  unfold jsRound
  rw [Int.floor_eq_iff]
  constructor <;> push_cast <;> norm_num

theorem natToHexAux_unfold (fuel n : Nat) (acc : List Char) (h : 0 < fuel) :
    natToHexAux fuel n acc =
      if n < 16 then hexDigitChar n :: acc
      else natToHexAux (fuel - 1) (n / 16) (hexDigitChar (n % 16) :: acc) := by
  cases fuel with
  | zero => omega
  | succ f => rfl

theorem natToHex_two_digits {hi lo : Nat} (hhi : hi < 16) (hlo : lo < 16) :
    padStart2 (natToHex (16 * hi + lo)) = [hexDigitChar hi, hexDigitChar lo] := by
  by_cases h0 : hi = 0
  · subst h0
    have hl : 16 * 0 + lo = lo := by omega
    rw [hl]
    unfold natToHex
    rw [natToHexAux_unfold _ _ _ (by omega), if_pos hlo]
    unfold padStart2
    rw [if_pos (by simp)]
    have : hexDigitChar 0 = '0' := by decide
    rw [this]
  · have h16 : ¬ (16 * hi + lo < 16) := by omega
    unfold natToHex
    rw [natToHexAux_unfold _ _ _ (by omega), if_neg h16]
    have hdiv : (16 * hi + lo) / 16 = hi := by omega
    have hmod : (16 * hi + lo) % 16 = lo := by omega
    rw [hdiv, hmod]
    rw [natToHexAux_unfold _ _ _ (by omega), if_pos hhi]
    unfold padStart2
    rw [if_neg (by simp)]

theorem hexDigitChar_val {c : Char} (h : isHexDigit c = true) :
    hexDigitChar (hexDigitVal c) = toLowerChar c := by
  have hn := isHexDigit_toNat h
  rcases hn with ⟨h1, h2⟩ | ⟨h1, h2⟩ | ⟨h1, h2⟩
  · have e1 : (48 ≤ c.toNat && c.toNat ≤ 57) = true := by
      simp only [Bool.and_eq_true, decide_eq_true_iff]; omega
    have hv : hexDigitVal c = c.toNat - 48 := by unfold hexDigitVal; rw [if_pos e1]
    have hl : toLowerChar c = c := by unfold toLowerChar; rw [if_neg (by omega)]
    rw [hl]
    unfold hexDigitChar
    rw [hv, if_pos (by omega)]
    have e2 : 48 + (c.toNat - 48) = c.toNat := by omega
    rw [e2, Char.ofNat_toNat]
  · have e1 : ¬ ((48 ≤ c.toNat && c.toNat ≤ 57) = true) := by
      simp only [Bool.and_eq_true, decide_eq_true_iff]; omega
    have e2 : (97 ≤ c.toNat && c.toNat ≤ 102) = true := by
      simp only [Bool.and_eq_true, decide_eq_true_iff]; omega
    have hv : hexDigitVal c = c.toNat - 87 := by
      unfold hexDigitVal; rw [if_neg e1, if_pos e2]
    have hl : toLowerChar c = c := by unfold toLowerChar; rw [if_neg (by omega)]
    rw [hl]
    unfold hexDigitChar
    rw [hv, if_neg (by omega)]
    have e3 : 87 + (c.toNat - 87) = c.toNat := by omega
    rw [e3, Char.ofNat_toNat]
  · have e1 : ¬ ((48 ≤ c.toNat && c.toNat ≤ 57) = true) := by
      simp only [Bool.and_eq_true, decide_eq_true_iff]; omega
    have e2 : ¬ ((97 ≤ c.toNat && c.toNat ≤ 102) = true) := by
      simp only [Bool.and_eq_true, decide_eq_true_iff]; omega
    have e3 : (65 ≤ c.toNat && c.toNat ≤ 70) = true := by
      simp only [Bool.and_eq_true, decide_eq_true_iff]; omega
    have hv : hexDigitVal c = c.toNat - 55 := by
      unfold hexDigitVal; rw [if_neg e1, if_neg e2, if_pos e3]
    have hl : toLowerChar c = Char.ofNat (c.toNat + 32) := by
      unfold toLowerChar; rw [if_pos (by omega)]
    rw [hl]
    unfold hexDigitChar
    rw [hv, if_neg (by omega)]
    have e4 : 87 + (c.toNat - 55) = c.toNat + 32 := by omega
    rw [e4]

theorem formatByte {a b : Char} (ha : isHexDigit a = true) (hb : isHexDigit b = true) :
    padStart2 (natToHex (ratToByteNat (jsParseIntHex [a, b]))) =
      [toLowerChar a, toLowerChar b] := by
  rw [jsParseIntHex_pair a b ha hb, ratToByteNat_natCast,
    natToHex_two_digits (hexDigitVal_lt a) (hexDigitVal_lt b),
    hexDigitChar_val ha, hexDigitChar_val hb]

theorem jsTrim_hash_hex {ds : List Char} (hhex : ∀ c ∈ ds, isHexDigit c = true) :
    jsTrim ('#' :: ds) = '#' :: ds := by
  apply jsTrim_eq_self
  intro c hc
  rcases List.mem_cons.mp hc with rfl | hc
  · decide
  · exact isWsChar_eq_false_of_hexDigit (hhex c hc)

theorem exists_len_six {α : Type} (l : List α) (h : l.length = 6) :
    ∃ a b c d e f, l = [a, b, c, d, e, f] := by
  rcases l with _ | ⟨a, _ | ⟨b, _ | ⟨c, _ | ⟨d, _ | ⟨e, _ | ⟨f, _ | ⟨g, t⟩⟩⟩⟩⟩⟩⟩ <;>
    first
      | exact ⟨_, _, _, _, _, _, rfl⟩
      | (simp only [List.length_cons, List.length_nil] at h; omega)

theorem exists_len_eight {α : Type} (l : List α) (h : l.length = 8) :
    ∃ a b c d e f g k, l = [a, b, c, d, e, f, g, k] := by
  rcases l with _ | ⟨a, _ | ⟨b, _ | ⟨c, _ | ⟨d, _ | ⟨e, _ | ⟨f, _ | ⟨g, _ | ⟨k, _ | ⟨m, t⟩⟩⟩⟩⟩⟩⟩⟩⟩ <;>
    first
      | exact ⟨_, _, _, _, _, _, _, _, rfl⟩
      | (simp only [List.length_cons, List.length_nil] at h; omega)

/-! ### Claim C3 -/

/-- C3 counterexample: for the valid 3-digit input `#abc`, parsing and then
formatting with matching alpha-explicitness yields `#aabbcc`, which is not
equal to `#abc` even up to letter case. -/
theorem claim3_cex :
    parseHexColor (strChars "#abc") = .ok ⟨170, 187, 204, 1⟩ ∧
      hasExplicitAlpha (strChars "#abc") = false ∧
      formatHexColor ⟨170, 187, 204, 1⟩ false = strChars "#aabbcc" ∧
      lowerStr (formatHexColor ⟨170, 187, 204, 1⟩ false) ≠ lowerStr (strChars "#abc") :=
  ⟨by decide, by decide, by decide, by decide⟩

/-- C3 amended (proved): the parse/format round trip is case-insensitively
the identity on the 6- and 8-digit hex forms; on the 3- and 4-digit forms the
formatter emits the digit-duplicated expansion instead (see `claim3_cex`). -/
theorem claim3_roundtrip_amended (ds : List Char)
    (hlen : ds.length = 6 ∨ ds.length = 8)
    (hhex : ∀ c ∈ ds, isHexDigit c = true) :
    ∃ rgba, parseHexColor ('#' :: ds) = .ok rgba ∧
      formatHexColor rgba (hasExplicitAlpha ('#' :: ds)) = lowerStr ('#' :: ds) := by
  have htrim : jsTrim ('#' :: ds) = '#' :: ds := jsTrim_hash_hex hhex
  have hstrip : stripHash (jsTrim ('#' :: ds)) = ds := by rw [htrim]; rfl
  have hlow : lowerStr ('#' :: ds) = '#' :: lowerStr ds := by
    unfold lowerStr
    rw [List.map_cons]
    rfl
  rcases hlen with h6 | h8
  · obtain ⟨a, b, c, d, e, f, rfl⟩ := exists_len_six ds h6
    refine ⟨parseLongHex [a, b, c, d, e, f], ?_, ?_⟩
    · rw [parseHexColor_def, hstrip]
      norm_num
    · have hals : hasExplicitAlpha ('#' :: [a, b, c, d, e, f]) = false := by
        unfold hasExplicitAlpha
        rw [hstrip]
        rfl
      rw [hals, hlow]
      show '#' :: _ = _
      unfold parseLongHex
      simp only [List.take, List.drop, List.length_cons, List.length_nil]
      rw [formatByte (hhex a (by simp)) (hhex b (by simp)),
        formatByte (hhex c (by simp)) (hhex d (by simp)),
        formatByte (hhex e (by simp)) (hhex f (by simp))]
      rfl
  · obtain ⟨a, b, c, d, e, f, g, k, rfl⟩ := exists_len_eight ds h8
    refine ⟨parseLongHex [a, b, c, d, e, f, g, k], ?_, ?_⟩
    · rw [parseHexColor_def, hstrip]
      norm_num
    · have hals : hasExplicitAlpha ('#' :: [a, b, c, d, e, f, g, k]) = true := by
        unfold hasExplicitAlpha
        rw [hstrip]
        rfl
      rw [hals, hlow]
      show '#' :: _ = _
      unfold parseLongHex
      simp only [List.take, List.drop, List.length_cons, List.length_nil]
      simp only [if_true]
      have halpha :
          jsRound (jsParseIntHex [g, k] / 255 * 255) =
            ((16 * hexDigitVal g + hexDigitVal k : ℕ) : ℤ) := by
        rw [div_mul_cancel₀ _ (by norm_num : (255 : ℚ) ≠ 0),
          jsParseIntHex_pair g k (hhex g (by simp)) (hhex k (by simp)),
          jsRound_natCast]
      rw [formatByte (hhex a (by simp)) (hhex b (by simp)),
        formatByte (hhex c (by simp)) (hhex d (by simp)),
        formatByte (hhex e (by simp)) (hhex f (by simp)),
        halpha, Int.toNat_natCast,
        natToHex_two_digits (hexDigitVal_lt g) (hexDigitVal_lt k),
        hexDigitChar_val (hhex g (by simp)), hexDigitChar_val (hhex k (by simp))]
      rfl

/-- Witness for the amended C3 at the 6-digit input `#A1b2C3`. -/
theorem claim3_witness :
    ∃ rgba, parseHexColor ('#' :: strChars "A1b2C3") = .ok rgba ∧
      formatHexColor rgba (hasExplicitAlpha ('#' :: strChars "A1b2C3")) =
        lowerStr ('#' :: strChars "A1b2C3") :=
  claim3_roundtrip_amended (strChars "A1b2C3") (by decide) (by decide)

/-! ### Claim C5 -/

/-- C5 (confirmed): for a fixed base colour that parses as a hex colour, and
mix ratios `r1 ≤ r2` in `[0, 1]`, the lightness of the HSL value that
`createInactiveColor` hands to `hslToRgb` is no smaller at `r2` than at `r1`,
and its saturation at `r2` is no greater than at `r1`. -/
theorem claim5_inactive_monotone (x : List Char) (c : Rgba) (r1 r2 : ℚ)
    (hparse : parseHexColor x = .ok c)
    (h0 : 0 ≤ r1) (h12 : r1 ≤ r2) (h2 : r2 ≤ 1) :
    inactiveLight c r1 ≤ inactiveLight c r2 ∧
      inactiveSat c r2 ≤ inactiveSat c r1 := by
  have hs := rgbToHsl_s_nonneg (parseHexColor_channels hparse)
  constructor
  · unfold inactiveLight inactiveLightBoost clamp01 clamp
    exact min_le_min (max_le_max (by linarith) le_rfl) le_rfl
  · unfold inactiveSat inactiveDesaturation clamp01 clamp
    refine min_le_min (max_le_max ?_ le_rfl) le_rfl
    have hd := mul_nonneg hs (sub_nonneg.mpr h12)
    nlinarith [hd]

/-- Witness for C5 at the base colour `#3366cc` and ratios `0 ≤ 1`. -/
theorem claim5_witness :
    inactiveLight ⟨51, 102, 204, 1⟩ 0 ≤ inactiveLight ⟨51, 102, 204, 1⟩ 1 ∧
      inactiveSat ⟨51, 102, 204, 1⟩ 1 ≤ inactiveSat ⟨51, 102, 204, 1⟩ 0 :=
  claim5_inactive_monotone (strChars "#3366cc") ⟨51, 102, 204, 1⟩ 0 1
    (by decide) (by decide) (by decide) (by decide)

/-! ### Claim C10 -/

/-- C10 (confirmed): calling `recolorVivaldiSvg` with both `fill` and
`stroke` absent (or given as the empty string, which is falsy) returns the
input text unchanged, character for character. -/
theorem claim10_identity (svgContent : List Char) (pf ps : Option Bool)
    (f s : Option (List Char))
    (hf : f = none ∨ f = some []) (hs : s = none ∨ s = some []) :
    recolorVivaldiSvg svgContent ⟨f, s, pf, ps⟩ = svgContent := by
  rcases hf with rfl | rfl <;> rcases hs with rfl | rfl <;> rfl

/-- Witness for C10 on a concrete document, one option absent and one empty. -/
theorem claim10_witness :
    recolorVivaldiSvg (strChars "<svg><path fill=\"#123456\"/></svg>")
        ⟨none, some [], some true, some false⟩ =
      strChars "<svg><path fill=\"#123456\"/></svg>" :=
  claim10_identity _ _ _ _ _ (Or.inl rfl) (Or.inr rfl)

/-! ### Claim C1 (counterexample half) -/

/-- C1 counterexample: on this well-formed SVG text the style-block pass
anchors its in-place rewrite with a first-occurrence string replacement,
which hits the `data-x` attribute of the open tag rather than the block
content; a second application then rewrites the content as well, so applying
the recolor operation twice differs from applying it once. -/
theorem claim1_cex :
    applyColor (strChars "<svg><style data-x=\"fill:red\">fill:red</style></svg>")
        (strChars "fill") (strChars "#000000") true =
      strChars "<svg><style data-x=\"fill:#000000\">fill:red</style></svg>" ∧
    applyColor
        (applyColor (strChars "<svg><style data-x=\"fill:red\">fill:red</style></svg>")
          (strChars "fill") (strChars "#000000") true)
        (strChars "fill") (strChars "#000000") true =
      strChars "<svg><style data-x=\"fill:#000000\">fill:#000000</style></svg>" ∧
    applyColor
        (applyColor (strChars "<svg><style data-x=\"fill:red\">fill:red</style></svg>")
          (strChars "fill") (strChars "#000000") true)
        (strChars "fill") (strChars "#000000") true ≠
      applyColor (strChars "<svg><style data-x=\"fill:red\">fill:red</style></svg>")
        (strChars "fill") (strChars "#000000") true :=
  ⟨by decide, by decide, by decide⟩

/-! ### Claim C2 (counterexample half) -/

/-- C2 counterexample: this SVG text contains the occurrence `fill="none"`
(inside character data, overlapping a preceding attribute-shaped match), yet
recoloring fill with `preserveNone = true` and target `#000000` does not
leave that occurrence unchanged — the whole occurrence is destroyed, because
the lazy attribute pattern consumes its `fill="` as a value. -/
theorem claim2_cex :
    containsSub (strChars "fill=\"none\"")
        (strChars "<svg><text>fill=\"fill=\"none\"</text></svg>") = true ∧
    applyColor (strChars "<svg><text>fill=\"fill=\"none\"</text></svg>")
        (strChars "fill") (strChars "#000000") true =
      strChars "<svg><text>fill=\"#000000\"none\"</text></svg>" ∧
    containsSub (strChars "fill=\"none\"")
        (applyColor (strChars "<svg><text>fill=\"fill=\"none\"</text></svg>")
          (strChars "fill") (strChars "#000000") true) = false :=
  ⟨by decide, by decide, by decide⟩

/-! ### Claim C7 (counterexample half) -/

/-- C7 counterexample: on this well-formed SVG text (the `fill` attribute
value is the string `stroke=`) the fill-attribute match and the
stroke-attribute match overlap, and applying fill-then-stroke differs from
stroke-then-fill. -/
theorem claim7_cex :
    applyColor
        (applyColor (strChars "<svg><path fill=\"stroke=\" d=\"x\"/></svg>")
          (strChars "fill") (strChars "#111111") true)
        (strChars "stroke") (strChars "#222222") true =
      strChars "<svg><path fill=\"#111111\" d=\"x\"/></svg>" ∧
    applyColor
        (applyColor (strChars "<svg><path fill=\"stroke=\" d=\"x\"/></svg>")
          (strChars "stroke") (strChars "#222222") true)
        (strChars "fill") (strChars "#111111") true =
      strChars "<svg><path fill=\"#111111\"#222222\"x\"/></svg>" ∧
    applyColor
        (applyColor (strChars "<svg><path fill=\"stroke=\" d=\"x\"/></svg>")
          (strChars "fill") (strChars "#111111") true)
        (strChars "stroke") (strChars "#222222") true ≠
      applyColor
        (applyColor (strChars "<svg><path fill=\"stroke=\" d=\"x\"/></svg>")
          (strChars "stroke") (strChars "#222222") true)
        (strChars "fill") (strChars "#111111") true :=
  ⟨by decide, by decide, by decide⟩

/-! ### Claim C6 -/

theorem exBindOk {ε α β : Type} (a : α) (f : α → Except ε β) :
    Except.bind (Except.ok a) f = f a := rfl

theorem exBindErr {ε α β : Type} (e : ε) (f : α → Except ε β) :
    Except.bind (Except.error e : Except ε α) f = .error e := rfl

/-- `generateIconVariants` with the `do` notation and local bindings
flattened into explicit `Except.bind` applications. -/
theorem generateIconVariants_eq (o : GenerateVariantsOptions) :
    generateIconVariants o =
      Except.bind (ensureValidSvg o.svgContent) (fun _ =>
        if o.generateInactive.getD true = true then
          Except.bind (transformInactiveColor o.fill
              (clampUnitRange (o.inactiveMix.getD defaultInactiveMix))) (fun inactiveFill =>
          Except.bind (transformInactiveColor o.stroke
              (clampUnitRange (o.inactiveMix.getD defaultInactiveMix))) (fun inactiveStroke =>
          Except.bind
            (match pickPrimaryColor o.fill o.stroke with
              | some pc => Except.map some (createInactiveBackgroundColor pc
                  (clampUnitRange (o.inactiveMix.getD defaultInactiveMix)))
              | none => pure none) (fun backgroundColor =>
          (if strTruthy backgroundColor = true then
            Except.bind
              (addOrUpdateBackgroundRect
                (inactiveRecolor o inactiveFill inactiveStroke)
                (backgroundColor.getD [])
                (max 0 (o.inactiveCornerRadius.getD defaultInactiveCornerRadius))
                (o.inactiveBackgroundInsetRatio.getD defaultInactiveInsetRatio))
              (fun inactiveSvg =>
                pure [{ name := strChars "active", svg := activeRecolor o,
                        fill := o.fill, stroke := o.stroke },
                      { name := strChars "inactive", svg := inactiveSvg,
                        fill := inactiveFill, stroke := inactiveStroke,
                        backgroundColor := backgroundColor }])
          else
            Except.bind (pure (inactiveRecolor o inactiveFill inactiveStroke))
              (fun inactiveSvg =>
                pure [{ name := strChars "active", svg := activeRecolor o,
                        fill := o.fill, stroke := o.stroke },
                      { name := strChars "inactive", svg := inactiveSvg,
                        fill := inactiveFill, stroke := inactiveStroke,
                        backgroundColor := backgroundColor }])))))
        else
          pure [{ name := strChars "active", svg := activeRecolor o,
                  fill := o.fill, stroke := o.stroke }]) := rfl

/-- C6 (confirmed): an input that lacks the `<svg` root marker makes the
generator fail with the invalid-SVG error (no variant list at all), and
conversely every successful call returns the full variant list — `active`
followed by `inactive` exactly when inactive generation is on. -/
theorem claim6_invalid_svg_atomic :
    (∀ o : GenerateVariantsOptions,
      containsSub (strChars "<svg") o.svgContent = false →
      generateIconVariants o = .error .invalidSvgDocument) ∧
    (∀ (o : GenerateVariantsOptions) (vs : List IconVariant),
      generateIconVariants o = .ok vs →
      vs.map IconVariant.name =
        if o.generateInactive.getD true then [strChars "active", strChars "inactive"]
        else [strChars "active"]) := by
  constructor
  · intro o h
    have he : ensureValidSvg o.svgContent = .error .invalidSvgDocument := by
      unfold ensureValidSvg
      rw [if_pos]
      right
      rw [h]
      simp
    rw [generateIconVariants_eq, he, exBindErr]
  · intro o vs h
    rw [generateIconVariants_eq] at h
    cases hE : ensureValidSvg o.svgContent with
    | error e => rw [hE, exBindErr] at h; exact absurd h (by simp)
    | ok u =>
      rw [hE, exBindOk] at h
      cases hGI : o.generateInactive.getD true <;> rw [hGI] at h
      · simp only [Bool.false_eq_true, if_false, pure, Except.pure, Except.ok.injEq] at h
        subst h
        rfl
      · rw [if_pos rfl] at h
        cases hF : transformInactiveColor o.fill
            (clampUnitRange (o.inactiveMix.getD defaultInactiveMix)) with
        | error e => rw [hF, exBindErr] at h; exact absurd h (by simp)
        | ok if1 =>
          rw [hF, exBindOk] at h
          cases hS : transformInactiveColor o.stroke
              (clampUnitRange (o.inactiveMix.getD defaultInactiveMix)) with
          | error e => rw [hS, exBindErr] at h; exact absurd h (by simp)
          | ok is1 =>
            rw [hS, exBindOk] at h
            cases hB : (match pickPrimaryColor o.fill o.stroke with
              | some pc => Except.map some (createInactiveBackgroundColor pc
                  (clampUnitRange (o.inactiveMix.getD defaultInactiveMix)))
              | none => (pure none : Except JsError (Option (List Char)))) with
            | error e => rw [hB, exBindErr] at h; exact absurd h (by simp)
            | ok bg =>
              rw [hB, exBindOk] at h
              by_cases hT : strTruthy bg = true
              · rw [if_pos hT] at h
                cases hA : addOrUpdateBackgroundRect
                    (inactiveRecolor o if1 is1) (bg.getD [])
                    (max 0 (o.inactiveCornerRadius.getD defaultInactiveCornerRadius))
                    (o.inactiveBackgroundInsetRatio.getD defaultInactiveInsetRatio) with
                | error e => rw [hA, exBindErr] at h; exact absurd h (by simp)
                | ok isvg =>
                  rw [hA, exBindOk] at h
                  simp only [pure, Except.pure, Except.ok.injEq] at h
                  subst h
                  rfl
              · rw [if_neg hT] at h
                simp only [pure, Except.pure, Except.ok.injEq, exBindOk] at h
                subst h
                rfl

/-- Witness for C6 on the malformed input `<not-svg/>`. -/
theorem claim6_witness :
    generateIconVariants { svgContent := strChars "<not-svg/>" } =
      .error .invalidSvgDocument :=
  claim6_invalid_svg_atomic.1 { svgContent := strChars "<not-svg/>" } (by decide)

/-! ### Claim C9 -/

/-- C9 (confirmed): two option records that both switch inactive generation
off and agree on the source text, colours and preserve flags produce the
same result, whatever their inactive mix, corner radius and inset ratio are;
that result, when successful, is a single `active` variant. -/
theorem claim9_inactive_noninterference (o1 o2 : GenerateVariantsOptions)
    (hg1 : o1.generateInactive = some false)
    (hg2 : o2.generateInactive = some false)
    (hsvg : o1.svgContent = o2.svgContent) (hf : o1.fill = o2.fill)
    (hs : o1.stroke = o2.stroke)
    (hpf : o1.preserveFillNone = o2.preserveFillNone)
    (hps : o1.preserveStrokeNone = o2.preserveStrokeNone) :
    generateIconVariants o1 = generateIconVariants o2 ∧
    ∀ vs, generateIconVariants o1 = .ok vs →
      ∃ v : IconVariant, vs = [v] ∧ v.name = strChars "active" := by
  have key : ∀ o : GenerateVariantsOptions, o.generateInactive = some false →
      generateIconVariants o =
        Except.bind (ensureValidSvg o.svgContent) (fun _ =>
          pure [{ name := strChars "active", svg := activeRecolor o,
                  fill := o.fill, stroke := o.stroke }]) := by
    intro o hg
    rw [generateIconVariants_eq, hg]
    rfl
  constructor
  · rw [key o1 hg1, key o2 hg2]
    unfold activeRecolor
    rw [hsvg, hf, hs, hpf, hps]
  · intro vs h
    rw [key o1 hg1] at h
    cases hE : ensureValidSvg o1.svgContent with
    | error e => rw [hE, exBindErr] at h; exact absurd h (by simp)
    | ok u =>
      rw [hE, exBindOk] at h
      simp only [pure, Except.pure, Except.ok.injEq] at h
      subst h
      exact ⟨_, rfl, rfl⟩

/-- Witness for C9: two concrete inactive-off option records that differ in
all three inactive parameters. -/
theorem claim9_witness :
    generateIconVariants
        { svgContent := strChars "<svg><path fill=\"#000000\"/></svg>",
          fill := some (strChars "#ff0000"), generateInactive := some false,
          inactiveMix := some 0, inactiveCornerRadius := some 1,
          inactiveBackgroundInsetRatio := some 0 } =
      generateIconVariants
        { svgContent := strChars "<svg><path fill=\"#000000\"/></svg>",
          fill := some (strChars "#ff0000"), generateInactive := some false,
          inactiveMix := some 1, inactiveCornerRadius := some 99,
          inactiveBackgroundInsetRatio := some 2 } :=
  (claim9_inactive_noninterference
    { svgContent := strChars "<svg><path fill=\"#000000\"/></svg>",
      fill := some (strChars "#ff0000"), generateInactive := some false,
      inactiveMix := some 0, inactiveCornerRadius := some 1,
      inactiveBackgroundInsetRatio := some 0 }
    { svgContent := strChars "<svg><path fill=\"#000000\"/></svg>",
      fill := some (strChars "#ff0000"), generateInactive := some false,
      inactiveMix := some 1, inactiveCornerRadius := some 99,
      inactiveBackgroundInsetRatio := some 2 }
    rfl rfl rfl rfl rfl rfl rfl).1

/-! ### Claim C4 -/

theorem clampRatio_idem (r : ℚ) : clampRatio (clampRatio r) = clampRatio r := by
  unfold clampRatio
  split_ifs <;> first | rfl | linarith

/-- C4 (confirmed): the rectangle geometry inside
`addOrUpdateBackgroundRect` is computed from `clampRatio insetRatio`; the
result at any ratio equals the result at the clamped ratio, and the clamp
maps the whole line into `[0, 0.9]`, sending negatives to 0 and values
above 0.9 to 0.9. -/
theorem claim4_inset_clamped (svgContent color : List Char)
    (cornerRadius insetRatio : ℚ) :
    addOrUpdateBackgroundRect svgContent color cornerRadius insetRatio =
      addOrUpdateBackgroundRect svgContent color cornerRadius
        (clampRatio insetRatio) ∧
    0 ≤ clampRatio insetRatio ∧ clampRatio insetRatio ≤ 9 / 10 ∧
    (insetRatio < 0 → clampRatio insetRatio = 0) ∧
    (9 / 10 < insetRatio → clampRatio insetRatio = 9 / 10) := by
  refine ⟨?_, ?_, ?_, ?_, ?_⟩
  · unfold addOrUpdateBackgroundRect
    rw [clampRatio_idem]
  · unfold clampRatio; split_ifs <;> linarith
  · unfold clampRatio; split_ifs <;> linarith
  · intro h; unfold clampRatio; split_ifs <;> linarith
  · intro h; unfold clampRatio; split_ifs <;> linarith

/-- Witness for C4 at a below-range and an above-range ratio. -/
theorem claim4_witness :
    (addOrUpdateBackgroundRect (strChars "<svg viewBox=\"0 0 24 24\"></svg>")
        (strChars "#aabbcc") 6 (-1) =
      addOrUpdateBackgroundRect (strChars "<svg viewBox=\"0 0 24 24\"></svg>")
        (strChars "#aabbcc") 6 (clampRatio (-1))) ∧
    clampRatio (-1) = 0 ∧ clampRatio 2 = 9 / 10 :=
  ⟨(claim4_inset_clamped (strChars "<svg viewBox=\"0 0 24 24\"></svg>")
      (strChars "#aabbcc") 6 (-1)).1,
   (claim4_inset_clamped (strChars "<svg viewBox=\"0 0 24 24\"></svg>")
      (strChars "#aabbcc") 6 (-1)).2.2.2.1 (by decide),
   (claim4_inset_clamped (strChars "<svg viewBox=\"0 0 24 24\"></svg>")
      (strChars "#aabbcc") 6 2).2.2.2.2 (by decide)⟩

/-! ### Claim C8 (counterexample half) -/

/-- C8 counterexample: when the pre-existing marker rectangle itself carries
the document's only `viewBox` attribute, the first injection replaces it
in place (computing viewBox geometry), and the second injection — although
it again replaces in place rather than duplicating — recomputes the
rectangle in percent units because the viewBox text is gone, so the second
output differs from the first. -/
theorem claim8_cex :
    addOrUpdateBackgroundRect
        (strChars "<svg><rect data-vivaldi-inactive-bg=\"true\" viewBox=\"0 0 10 10\"/></svg>")
        (strChars "#aabbcc") 6 0 =
      .ok (strChars "<svg><rect data-vivaldi-inactive-bg=\"true\" x=\"0\" y=\"0\" width=\"10\" height=\"10\" rx=\"6\" ry=\"6\" fill=\"#aabbcc\"/></svg>") ∧
    addOrUpdateBackgroundRect
        (strChars "<svg><rect data-vivaldi-inactive-bg=\"true\" x=\"0\" y=\"0\" width=\"10\" height=\"10\" rx=\"6\" ry=\"6\" fill=\"#aabbcc\"/></svg>")
        (strChars "#aabbcc") 6 0 =
      .ok (strChars "<svg><rect data-vivaldi-inactive-bg=\"true\" x=\"0.00%\" y=\"0.00%\" width=\"100.00%\" height=\"100.00%\" rx=\"6\" ry=\"6\" fill=\"#aabbcc\"/></svg>") ∧
    ¬ (strChars "<svg><rect data-vivaldi-inactive-bg=\"true\" x=\"0.00%\" y=\"0.00%\" width=\"100.00%\" height=\"100.00%\" rx=\"6\" ry=\"6\" fill=\"#aabbcc\"/></svg>") =
      (strChars "<svg><rect data-vivaldi-inactive-bg=\"true\" x=\"0\" y=\"0\" width=\"10\" height=\"10\" rx=\"6\" ry=\"6\" fill=\"#aabbcc\"/></svg>") :=
  ⟨by decide, by decide, by decide⟩

/-! ### A structured family of well-formed SVG texts

The counterexamples for C1, C2 and C7 exploit texts where an occurrence of
a `fill`/`stroke`/`style` pattern overlaps other syntax (an attribute value
containing `stroke=`, a style-block attribute value containing `fill:`…).
The amended claims quantify over a structured family that excludes exactly
this: concatenations of plain segments free of the letters `f`/`s` (in
either case — no property or style pattern can start inside them) and
canonical `prop="value"` attributes whose values are built from colour
characters (hex digits, `#`, blanks and the letters of `none`). -/

theorem charToNat_inj {a b : Char} (h : a.toNat = b.toNat) : a = b :=
  Char.eq_of_val_eq (UInt32.ext h)

theorem toNat_ofNat_lt {n : Nat} (h : n < 55296) : (Char.ofNat n).toNat = n := by
  unfold Char.ofNat
  rw [dif_pos]
  · rfl
  · constructor
    omega

theorem toLowerChar_f {c : Char} (h : toLowerChar c = 'f') : c = 'f' ∨ c = 'F' := by
  have hf : ('f' : Char).toNat = 102 := rfl
  have hF : ('F' : Char).toNat = 70 := rfl
  unfold toLowerChar at h
  split_ifs at h with hc
  · have h2 := congrArg Char.toNat h
    rw [toNat_ofNat_lt (by omega)] at h2
    right
    exact charToNat_inj (by omega)
  · exact Or.inl h

theorem toLowerChar_s {c : Char} (h : toLowerChar c = 's') : c = 's' ∨ c = 'S' := by
  have hs : ('s' : Char).toNat = 115 := rfl
  have hS : ('S' : Char).toNat = 83 := rfl
  unfold toLowerChar at h
  split_ifs at h with hc
  · have h2 := congrArg Char.toNat h
    rw [toNat_ofNat_lt (by omega)] at h2
    right
    exact charToNat_inj (by omega)
  · exact Or.inl h

theorem NoStartF.append {P : List Char → Prop} {c1 c2 R : List Char}
    (h1 : NoStartF P c1 (c2 ++ R)) (h2 : NoStartF P c2 R) :
    NoStartF P (c1 ++ c2) R := by
  intro a b hsplit hb
  rcases List.append_eq_append_iff.mp hsplit.symm with ⟨m, hm1, hm2⟩ | ⟨m, hm1, hm2⟩
  · rcases eq_or_ne m [] with rfl | hm
    · rw [List.nil_append] at hm2
      rw [hm2]
      exact h2 [] c2 rfl (hm2 ▸ hb)
    · rw [hm2, List.append_assoc]
      exact h1 a m hm1 hm
  · exact h2 m b hm2 hb

theorem NoStartF.of_head {P : List Char → Prop} {chunk R : List Char}
    (h : ∀ c ∈ chunk, ∀ rest, P (c :: rest)) : NoStartF P chunk R := by
  intro a b hsplit hb
  cases b with
  | nil => exact absurd rfl hb
  | cons c b2 =>
    have hc : c ∈ chunk := by
      rw [hsplit]
      exact List.mem_append.mpr (Or.inr (by simp))
    exact h c hc (b2 ++ R)

theorem takeLitCI_none_short {pat s : List Char} (h : s.length < pat.length) :
    takeLitCI pat s = none := by
  induction pat generalizing s with
  | nil => simp at h
  | cons p ps ih =>
    cases s with
    | nil => rfl
    | cons c cs =>
      unfold takeLitCI
      split
      · rw [ih (by simpa using h)]
      · rfl

theorem takeLitCI_none_mism {pat1 s1 : List Char} (pat2 s2 : List Char)
    {p c : Char} (hlen : pat1.length = s1.length)
    (hne : toLowerChar p ≠ toLowerChar c) :
    takeLitCI (pat1 ++ p :: pat2) (s1 ++ c :: s2) = none := by
  induction pat1 generalizing s1 with
  | nil =>
    cases s1 with
    | nil =>
      simp only [List.nil_append]
      unfold takeLitCI
      rw [if_neg hne]
    | cons d ds => simp at hlen
  | cons p1 ps1 ih =>
    cases s1 with
    | nil => simp at hlen
    | cons d ds =>
      show takeLitCI (p1 :: (ps1 ++ p :: pat2)) (d :: (ds ++ c :: s2)) = none
      unfold takeLitCI
      split
      · rw [ih (by simpa using hlen)]
      · rfl

theorem matchAttrAt_none_of_lit {prop s : List Char}
    (h : takeLitCI prop s = none) : matchAttrAt prop s = none := by
  unfold matchAttrAt
  rw [h]

theorem matchStyleAt_none_of_lit {s : List Char}
    (h : takeLitCI (strChars "style=\"") s = none) : matchStyleAt s = none := by
  unfold matchStyleAt
  rw [h]

theorem matchStyleBlockAt_none_of_lit {s : List Char}
    (h : takeLitCI (strChars "<style") s = none) : matchStyleBlockAt s = none := by
  unfold matchStyleBlockAt
  rw [h]

/-! #### Decomposition facts for the scanners -/

theorem takeLitCI_decomp {pat s tk rest : List Char}
    (h : takeLitCI pat s = some (tk, rest)) :
    s = tk ++ rest ∧ tk.length = pat.length ∧ lowerStr tk = lowerStr pat := by
  induction pat generalizing s tk rest with
  | nil =>
    unfold takeLitCI at h
    cases h
    exact ⟨rfl, rfl, rfl⟩
  | cons p ps ih =>
    cases s with
    | nil => exact absurd h (by unfold takeLitCI; simp)
    | cons c cs =>
      unfold takeLitCI at h
      split_ifs at h with heq
      · cases h2 : takeLitCI ps cs with
        | none => rw [h2] at h; simp at h
        | some pr =>
          obtain ⟨tk2, rest2⟩ := pr
          rw [h2] at h
          simp only [Option.some.injEq, Prod.mk.injEq] at h
          obtain ⟨h3, h4⟩ := h
          subst h4
          obtain ⟨hd, hl, hlow⟩ := ih h2
          refine ⟨?_, ?_, ?_⟩
          · rw [← h3, hd]; rfl
          · rw [← h3]; simp [hl]
          · rw [← h3]
            show toLowerChar c :: lowerStr tk2 = toLowerChar p :: lowerStr ps
            rw [hlow, heq]

theorem takeLitCI_refl (pat rest : List Char) :
    takeLitCI pat (pat ++ rest) = some (pat, rest) := by
  induction pat with
  | nil => rfl
  | cons p ps ih =>
    show takeLitCI (p :: ps) (p :: (ps ++ rest)) = _
    unfold takeLitCI
    rw [if_pos rfl, ih]

theorem takeLazyValue_decomp {s v rest : List Char}
    (h : takeLazyValue s = some (v, rest)) : s = v ++ '"' :: rest := by
  induction s generalizing v with
  | nil => exact absurd h (by unfold takeLazyValue; simp)
  | cons c cs ih =>
    unfold takeLazyValue at h
    split_ifs at h with h1 h2
    · cases h
      rw [h1]
      rfl
    · cases h3 : takeLazyValue cs with
      | none => rw [h3] at h; simp at h
      | some pr =>
        obtain ⟨v2, rest2⟩ := pr
        rw [h3] at h
        simp only [Option.some.injEq, Prod.mk.injEq] at h
        obtain ⟨h4, h5⟩ := h
        subst h5
        rw [← h4]
        simpa using ih h3

theorem takeLazyValue_append {v : List Char} (rest : List Char)
    (hv : ∀ c ∈ v, c ≠ '"' ∧ isLineTerm c = false) :
    takeLazyValue (v ++ '"' :: rest) = some (v, rest) := by
  induction v with
  | nil =>
    show takeLazyValue ('"' :: rest) = _
    unfold takeLazyValue
    rw [if_pos rfl]
  | cons c cs ih =>
    show takeLazyValue (c :: (cs ++ '"' :: rest)) = _
    unfold takeLazyValue
    have hc := hv c (by simp)
    rw [if_neg hc.1, if_neg (by simp [hc.2]), ih (fun d hd => hv d (by simp [hd]))]

theorem matchAttrAt_decomp {prop s pfx v rest : List Char}
    (h : matchAttrAt prop s = some (pfx, v, rest)) :
    s = pfx ++ v ++ '"' :: rest ∧ pfx ≠ [] := by
  unfold matchAttrAt at h
  cases h1 : takeLitCI prop s with
  | none => rw [h1] at h; simp at h
  | some pr =>
    obtain ⟨propTk, s1⟩ := pr
    rw [h1] at h
    simp only at h
    cases h2 : s1.dropWhile isWsChar with
    | nil => rw [h2] at h; simp at h
    | cons c s3 =>
      rw [h2] at h
      by_cases hc : c = '='
      · subst hc
        simp only at h
        cases h3 : s3.dropWhile isWsChar with
        | nil => rw [h3] at h; simp at h
        | cons d s5 =>
          rw [h3] at h
          by_cases hd : d = '"'
          · subst hd
            simp only at h
            cases h4 : takeLazyValue s5 with
            | none => rw [h4] at h; simp at h
            | some pr2 =>
              obtain ⟨v2, rest2⟩ := pr2
              rw [h4] at h
              simp only [Option.some.injEq, Prod.mk.injEq] at h
              obtain ⟨hpfx, hv2, hrest⟩ := h
              subst hv2
              subst hrest
              have hs : s = propTk ++ s1 := (takeLitCI_decomp h1).1
              have hs1 : s1 = s1.takeWhile isWsChar ++ ('=' :: s3) := by
                rw [← h2]
                exact (List.takeWhile_append_dropWhile _ _).symm
              have hs3 : s3 = s3.takeWhile isWsChar ++ ('"' :: s5) := by
                rw [← h3]
                exact (List.takeWhile_append_dropWhile _ _).symm
              have hs5 : s5 = v2 ++ '"' :: rest2 := takeLazyValue_decomp h4
              constructor
              · rw [hs, hs1, hs3, hs5, ← hpfx]
                simp
              · rw [← hpfx]
                simp
          · split at h
            · next heq =>
              simp only [List.cons.injEq] at heq
              exact absurd heq.1 hd
            · exact absurd h (by simp)
      · split at h
        · next heq =>
          simp only [List.cons.injEq] at heq
          exact absurd heq.1 hc
        · exact absurd h (by simp)

/-! #### Fuel irrelevance and chunk-skipping for the three scanners -/

theorem scanAttr_fuel (prop color : List Char) (pres : Bool) :
    ∀ (f1 f2 : Nat) (s : List Char), s.length ≤ f1 → s.length ≤ f2 →
      scanAttr prop color pres f1 s = scanAttr prop color pres f2 s := by
  intro f1
  induction f1 with
  | zero =>
    intro f2 s hs1 _
    have : s = [] := List.eq_nil_of_length_eq_zero (Nat.le_zero.mp hs1)
    subst this
    cases f2 <;> rfl
  | succ f1 ih =>
    intro f2 s hs1 hs2
    cases s with
    | nil => cases f2 <;> rfl
    | cons c cs =>
      cases f2 with
      | zero => simp at hs2
      | succ f2 =>
        show scanAttr prop color pres (f1 + 1) (c :: cs) =
          scanAttr prop color pres (f2 + 1) (c :: cs)
        unfold scanAttr
        cases hm : matchAttrAt prop (c :: cs) with
        | none =>
          simp only
          rw [ih f2 cs (by simpa using hs1) (by simpa using hs2)]
        | some pr =>
          obtain ⟨pfx, v, rest⟩ := pr
          simp only
          obtain ⟨hdec, hne⟩ := matchAttrAt_decomp hm
          have hlen : rest.length ≤ f1 ∧ rest.length ≤ f2 := by
            have : (c :: cs).length = pfx.length + v.length + (rest.length + 1) := by
              rw [hdec]
              simp only [List.length_append, List.length_cons]
              try omega
            have h1 : rest.length + 1 ≤ (c :: cs).length := by omega
            simp only [List.length_cons] at h1 hs1 hs2
            omega
          rw [ih f2 rest hlen.1 hlen.2]

theorem scanAttr_skip (prop color : List Char) (pres : Bool)
    {chunk R : List Char}
    (hcert : NoStartF (fun s => matchAttrAt prop s = none) chunk R) :
    ∀ fuel, (chunk ++ R).length ≤ fuel →
      scanAttr prop color pres fuel (chunk ++ R) =
        chunk ++ scanAttr prop color pres R.length R := by
  induction chunk with
  | nil =>
    intro fuel hfuel
    simp only [List.nil_append] at hfuel ⊢
    exact scanAttr_fuel prop color pres fuel R.length R hfuel le_rfl
  | cons c chunk ih =>
    intro fuel hfuel
    cases fuel with
    | zero => simp at hfuel
    | succ fuel =>
      have hnone : matchAttrAt prop (c :: (chunk ++ R)) = none := by
        have := hcert [] (c :: chunk) rfl (by simp)
        simpa using this
      have step : scanAttr prop color pres (fuel + 1) (c :: (chunk ++ R)) =
          c :: scanAttr prop color pres fuel (chunk ++ R) := by
        conv_lhs => unfold scanAttr
        rw [hnone]
      rw [List.cons_append, step,
        ih (fun a b hab hb => hcert (c :: a) b (by rw [hab]; rfl) hb)
          fuel (by simpa using hfuel)]
      rfl

theorem scanStyleAttr_fuel (prop color : List Char) (pres : Bool) :
    ∀ (f1 f2 : Nat) (s : List Char), s.length ≤ f1 → s.length ≤ f2 →
      scanStyleAttr prop color pres f1 s = scanStyleAttr prop color pres f2 s := by
  intro f1
  induction f1 with
  | zero =>
    intro f2 s hs1 _
    have : s = [] := List.eq_nil_of_length_eq_zero (Nat.le_zero.mp hs1)
    subst this
    cases f2 <;> rfl
  | succ f1 ih =>
    intro f2 s hs1 hs2
    cases s with
    | nil => cases f2 <;> rfl
    | cons c cs =>
      cases f2 with
      | zero => simp at hs2
      | succ f2 =>
        show scanStyleAttr prop color pres (f1 + 1) (c :: cs) =
          scanStyleAttr prop color pres (f2 + 1) (c :: cs)
        unfold scanStyleAttr
        cases hm : matchStyleAt (c :: cs) with
        | none =>
          simp only
          rw [ih f2 cs (by simpa using hs1) (by simpa using hs2)]
        | some pr =>
          obtain ⟨tk, body, rest⟩ := pr
          simp only
          have hdec : (c :: cs) = tk ++ body ++ '"' :: rest ∧ tk ≠ [] := by
            unfold matchStyleAt at hm
            cases h1 : takeLitCI (strChars "style=\"") (c :: cs) with
            | none => rw [h1] at hm; simp at hm
            | some pr2 =>
              obtain ⟨tk2, s1⟩ := pr2
              rw [h1] at hm
              simp only at hm
              cases h2 : s1.dropWhile (fun c => c != '"') with
              | nil => rw [h2] at hm; simp at hm
              | cons d s3 =>
                rw [h2] at hm
                by_cases hd : d = '"'
                · subst hd
                  simp only [Option.some.injEq, Prod.mk.injEq] at hm
                  obtain ⟨htk, hbody, hrest⟩ := hm
                  subst htk hbody hrest
                  obtain ⟨hcons, hlen2, _⟩ := takeLitCI_decomp h1
                  constructor
                  · rw [hcons]
                    have hsp : s1 = s1.takeWhile (fun c => c != '"') ++ ('"' :: s3) := by
                      rw [← h2]
                      exact (List.takeWhile_append_dropWhile _ _).symm
                    conv_lhs => rw [hsp]
                    simp
                  · intro hemp
                    rw [hemp] at hlen2
                    simp [strChars] at hlen2
                · split at hm
                  · next heq =>
                    simp only [List.cons.injEq] at heq
                    exact absurd heq.1 hd
                  · exact absurd hm (by simp)
          have hlen : rest.length ≤ f1 ∧ rest.length ≤ f2 := by
            have : (c :: cs).length = tk.length + body.length + (rest.length + 1) := by
              rw [hdec.1]
              simp only [List.length_append, List.length_cons]
              try omega
            simp only [List.length_cons] at this hs1 hs2
            omega
          rw [ih f2 rest hlen.1 hlen.2]

theorem scanStyleAttr_skip (prop color : List Char) (pres : Bool)
    {chunk : List Char}
    (hcert : NoStartF (fun s => matchStyleAt s = none) chunk []) :
    ∀ fuel, chunk.length ≤ fuel →
      scanStyleAttr prop color pres fuel chunk = chunk := by
  induction chunk with
  | nil => intro fuel _; cases fuel <;> rfl
  | cons c chunk ih =>
    intro fuel hfuel
    cases fuel with
    | zero => simp at hfuel
    | succ fuel =>
      have hnone : matchStyleAt (c :: chunk) = none := by
        have := hcert [] (c :: chunk) rfl (by simp)
        simpa using this
      have step : scanStyleAttr prop color pres (fuel + 1) (c :: chunk) =
          c :: scanStyleAttr prop color pres fuel chunk := by
        conv_lhs => unfold scanStyleAttr
        rw [hnone]
      rw [step,
        ih (fun a b hab hb => hcert (c :: a) b (by rw [hab]; rfl) hb)
          fuel (by simpa using hfuel)]

theorem scanStyleBlocks_skip (prop color : List Char) (pres : Bool)
    {chunk : List Char}
    (hcert : NoStartF (fun s => matchStyleBlockAt s = none) chunk []) :
    ∀ fuel, chunk.length ≤ fuel →
      scanStyleBlocks prop color pres fuel chunk = chunk := by
  induction chunk with
  | nil => intro fuel _; cases fuel <;> rfl
  | cons c chunk ih =>
    intro fuel hfuel
    cases fuel with
    | zero => simp at hfuel
    | succ fuel =>
      have hnone : matchStyleBlockAt (c :: chunk) = none := by
        have := hcert [] (c :: chunk) rfl (by simp)
        simpa using this
      have step : scanStyleBlocks prop color pres (fuel + 1) (c :: chunk) =
          c :: scanStyleBlocks prop color pres fuel chunk := by
        conv_lhs => unfold scanStyleBlocks
        rw [hnone]
      rw [step,
        ih (fun a b hab hb => hcert (c :: a) b (by rw [hab]; rfl) hb)
          fuel (by simpa using hfuel)]

/-! #### Character facts for the family -/

theorem toLowerChar_lt {c : Char} (h : toLowerChar c = '<') : c = '<' := by
  have h1 : ('<' : Char).toNat = 60 := rfl
  unfold toLowerChar at h
  split_ifs at h with hc
  · have h2 := congrArg Char.toNat h
    rw [toNat_ofNat_lt (by omega)] at h2
    omega
  · exact h

theorem okRawChar_not_fs {c : Char} (hc : okRawChar c = true) :
    toLowerChar c ≠ 'f' ∧ toLowerChar c ≠ 's' := by
  constructor
  · intro h
    rcases toLowerChar_f h with rfl | rfl <;> exact absurd hc (by decide)
  · intro h
    rcases toLowerChar_s h with rfl | rfl <;> exact absurd hc (by decide)

theorem okValChar_not_s {c : Char} (hc : okValChar c = true) :
    toLowerChar c ≠ 's' := by
  have hmem : c ∈ strChars "#0123456789abcdefABCDEF noeNOE" := of_decide_eq_true hc
  have hall : ∀ d ∈ strChars "#0123456789abcdefABCDEF noeNOE",
      toLowerChar d ≠ 's' := by decide
  exact hall c hmem

theorem okValChar_not_i {c : Char} (hc : okValChar c = true) :
    toLowerChar c ≠ 'i' := by
  have hmem : c ∈ strChars "#0123456789abcdefABCDEF noeNOE" := of_decide_eq_true hc
  have hall : ∀ d ∈ strChars "#0123456789abcdefABCDEF noeNOE",
      toLowerChar d ≠ 'i' := by decide
  exact hall c hmem

theorem okValChar_quote {c : Char} (hc : okValChar c = true) :
    c ≠ '"' ∧ isLineTerm c = false := by
  have hmem : c ∈ strChars "#0123456789abcdefABCDEF noeNOE" := of_decide_eq_true hc
  have hall : ∀ d ∈ strChars "#0123456789abcdefABCDEF noeNOE",
      d ≠ '"' ∧ isLineTerm d = false := by decide
  exact hall c hmem

/-! #### Head-mismatch facts for the attribute pattern -/

theorem matchAttrAt_fill_none_head {c : Char} (hc : toLowerChar c ≠ 'f')
    (rest : List Char) : matchAttrAt (propStr .fill) (c :: rest) = none := by
  apply matchAttrAt_none_of_lit
  have : takeLitCI ([] ++ 'f' :: strChars "ill") ([] ++ c :: rest) = none :=
    takeLitCI_none_mism _ _ rfl (fun h => hc (by rw [← h]; rfl))
  simpa using this

theorem matchAttrAt_stroke_none_head {c : Char} (hc : toLowerChar c ≠ 's')
    (rest : List Char) : matchAttrAt (propStr .stroke) (c :: rest) = none := by
  apply matchAttrAt_none_of_lit
  have : takeLitCI ([] ++ 's' :: strChars "troke") ([] ++ c :: rest) = none :=
    takeLitCI_none_mism _ _ rfl (fun h => hc (by rw [← h]; rfl))
  simpa using this

theorem matchAttrAt_none_head (p : PropName) {c : Char}
    (hc : toLowerChar c ≠ 'f' ∧ toLowerChar c ≠ 's') (rest : List Char) :
    matchAttrAt (propStr p) (c :: rest) = none := by
  cases p
  · exact matchAttrAt_fill_none_head hc.1 rest
  · exact matchAttrAt_stroke_none_head hc.2 rest

/-! #### No attribute match starts inside a raw chunk or a cross-property
attribute segment -/

theorem cert_attr_raw (p : PropName) {t : List Char}
    (ht : ∀ c ∈ t, okRawChar c = true) (R : List Char) :
    NoStartF (fun s => matchAttrAt (propStr p) s = none) t R :=
  NoStartF.of_head (fun c hc rest =>
    matchAttrAt_none_head p (okRawChar_not_fs (ht c hc)) rest)

theorem cert_fill_value {v : List Char} (hv : ∀ c ∈ v, okValChar c = true)
    (R : List Char) :
    NoStartF (fun s => matchAttrAt (propStr .fill) s = none) (v ++ ['"']) R := by
  intro a b hsplit hb
  cases b with
  | nil => exact absurd rfl hb
  | cons c b2 =>
    by_cases hcf : toLowerChar c = 'f'
    · cases b2 with
      | nil =>
        have hc : c = '"' := by
          have h5 := congrArg List.getLast? hsplit
          simp at h5
          exact h5.symm
        rw [hc] at hcf
        exact absurd hcf (by decide)
      | cons d b3 =>
        have hdmem : d ∈ v ++ ['"'] := by
          rw [hsplit]
          simp
        have hd : toLowerChar d ≠ 'i' := by
          rcases List.mem_append.mp hdmem with hdv | hdq
          · exact okValChar_not_i (hv d hdv)
          · simp at hdq
            rw [hdq]
            decide
        apply matchAttrAt_none_of_lit
        have : takeLitCI (['f'] ++ 'i' :: strChars "ll")
            ([c] ++ d :: (b3 ++ R)) = none :=
          takeLitCI_none_mism _ _ rfl (fun h => hd (by rw [← h]; rfl))
        simpa [hcf] using this
    · exact matchAttrAt_fill_none_head hcf (b2 ++ R)

theorem cert_attr_cross (p q : PropName) (hpq : q ≠ p) {v : List Char}
    (hv : ∀ c ∈ v, okValChar c = true) (R : List Char) :
    NoStartF (fun s => matchAttrAt (propStr p) s = none)
      (renderSeg (.attr q v)) R := by
  cases p <;> cases q
  · exact absurd rfl hpq
  · -- stroke segment scanned for fill
    show NoStartF _ (propStr .stroke ++ strChars "=\"" ++ v ++ ['"']) R
    rw [List.append_assoc (propStr .stroke ++ strChars "=\"") v ['"']]
    refine NoStartF.append (NoStartF.of_head ?_) (cert_fill_value hv R)
    intro c hc rest
    have hcf : toLowerChar c ≠ 'f' := by
      have hall : ∀ d ∈ propStr PropName.stroke ++ strChars "=\"",
          toLowerChar d ≠ 'f' := by decide
      exact hall c hc
    exact matchAttrAt_fill_none_head hcf rest
  · -- fill segment scanned for stroke
    refine NoStartF.of_head (fun c hc rest => matchAttrAt_stroke_none_head ?_ rest)
    have hall : ∀ d ∈ propStr PropName.fill ++ strChars "=\"",
        toLowerChar d ≠ 's' := by decide
    simp only [renderSeg] at hc
    rcases List.mem_append.mp hc with h1 | h2
    · rcases List.mem_append.mp h1 with h3 | h4
      · exact hall c h3
      · exact okValChar_not_s (hv c h4)
    · simp at h2
      rw [h2]
      decide
  · exact absurd rfl hpq

/-! #### The attribute pattern matches a canonical attribute segment -/

theorem matchAttrAt_eq (prop v R : List Char)
    (hv : ∀ c ∈ v, c ≠ '"' ∧ isLineTerm c = false) :
    matchAttrAt prop (prop ++ '=' :: '"' :: (v ++ '"' :: R)) =
      some (prop ++ ['='] ++ ['"'], v, R) := by
  unfold matchAttrAt
  rw [takeLitCI_refl]
  have h1 : isWsChar '=' = false := by decide
  have h2 : isWsChar '"' = false := by decide
  simp only [List.takeWhile_cons, List.dropWhile_cons, h1, h2, Bool.false_eq_true,
    if_false, takeLazyValue_append R hv]
  simp

theorem renderSeg_attr_shape (p : PropName) (v R : List Char) :
    renderSeg (.attr p v) ++ R = propStr p ++ '=' :: '"' :: (v ++ '"' :: R) := by
  show propStr p ++ strChars "=\"" ++ v ++ ['"'] ++ R = _
  simp [strChars]

/-! #### The attribute pass on the rendered family -/

theorem scanAttr_render (p : PropName) {color : List Char}
    (hc : okColor color) (pres : Bool) :
    ∀ (segs : List Seg), okSegs segs →
    ∀ fuel, (renderSegs segs).length ≤ fuel →
    scanAttr (propStr p) color pres fuel (renderSegs segs) =
      renderSegs (segs.map (updSeg p color pres)) := by
  intro segs
  induction segs with
  | nil =>
    intro _ fuel _
    show scanAttr (propStr p) color pres fuel [] = []
    cases fuel <;> rfl
  | cons sg rest ih =>
    intro hok fuel hfuel
    have hokr : okSegs rest := fun s hs => hok s (List.mem_cons_of_mem _ hs)
    cases sg with
    | raw t =>
      have hraw : ∀ c ∈ t, okRawChar c = true := by
        have h := hok (.raw t) (by simp)
        exact h.2
      have hrender : renderSegs (Seg.raw t :: rest) = t ++ renderSegs rest := by
        simp [renderSegs, renderSeg]
      have hmapr : renderSegs ((Seg.raw t :: rest).map (updSeg p color pres)) =
          t ++ renderSegs (rest.map (updSeg p color pres)) := by
        simp [renderSegs, renderSeg, updSeg]
      rw [hrender] at hfuel ⊢
      rw [scanAttr_skip (propStr p) color pres (cert_attr_raw p hraw _) fuel hfuel,
        ih hokr (renderSegs rest).length le_rfl, hmapr]
    | attr q v =>
      have hval : ∀ c ∈ v, okValChar c = true := by
        have h := hok (.attr q v) (by simp)
        exact h
      have hrender : renderSegs (Seg.attr q v :: rest) =
          renderSeg (.attr q v) ++ renderSegs rest := by
        simp [renderSegs]
      have hmapr : renderSegs ((Seg.attr q v :: rest).map (updSeg p color pres)) =
          renderSeg (updSeg p color pres (.attr q v)) ++
            renderSegs (rest.map (updSeg p color pres)) := by
        simp [renderSegs]
      by_cases hq : q = p
      · subst hq
        rw [hrender] at hfuel ⊢
        rw [renderSeg_attr_shape] at hfuel ⊢
        cases fuel with
        | zero =>
          exfalso
          simp at hfuel
        | succ fuel =>
          have hshape : propStr q ++ '=' :: '"' :: (v ++ '"' :: renderSegs rest) =
              (propStr q).headD 'f' ::
                ((propStr q).tail ++ '=' :: '"' :: (v ++ '"' :: renderSegs rest)) := by
            cases q <;> rfl
          rw [hshape]
          have hstep := matchAttrAt_eq (propStr q) v (renderSegs rest)
            (fun c hcv => okValChar_quote (hval c hcv))
          rw [hshape] at hstep
          conv_lhs => unfold scanAttr
          rw [hstep]
          have hfr : (renderSegs rest).length ≤ fuel := by
            rw [hshape] at hfuel
            simp only [List.length_cons, List.length_append] at hfuel ⊢
            omega
          simp only
          rw [scanAttr_fuel (propStr q) color pres fuel (renderSegs rest).length _
              hfr le_rfl,
            ih hokr (renderSegs rest).length le_rfl]
          rw [hmapr]
          have he : strChars "=\"" = ['=', '"'] := rfl
          by_cases hcond : pres = true ∧ lowerStr (jsTrim v) = strChars "none" ∧
              ¬ lowerStr (jsTrim color) = strChars "none"
          · rw [if_pos hcond]
            have hupd : updSeg q color pres (.attr q v) = .attr q v := by
              simp only [updSeg, if_true]
              rw [if_pos hcond]
            rw [hupd]
            simp [renderSeg, he]
          · rw [if_neg hcond]
            have hupd : updSeg q color pres (.attr q v) = .attr q color := by
              simp only [updSeg, if_true]
              rw [if_neg hcond]
            rw [hupd]
            simp [renderSeg, he]
      · rw [hrender] at hfuel ⊢
        rw [scanAttr_skip (propStr p) color pres (cert_attr_cross p q hq hval _)
            fuel hfuel,
          ih hokr (renderSegs rest).length le_rfl, hmapr]
        have : updSeg p color pres (.attr q v) = .attr q v := by
          simp only [updSeg]
          rw [if_neg hq]
        rw [this]

/-! #### No inline-style match starts anywhere in the rendered family -/

theorem NoStartF.cons {P : List Char → Prop} {c : Char} {chunk R : List Char}
    (h0 : P (c :: (chunk ++ R))) (h1 : NoStartF P chunk R) :
    NoStartF P (c :: chunk) R := by
  intro a b hsplit hb
  cases a with
  | nil =>
    rw [List.nil_append] at hsplit
    subst hsplit
    exact h0
  | cons a0 a1 =>
    injection hsplit with h2 h3
    exact h1 a1 b h3 hb

theorem matchStyleAt_none_head {c : Char} (hcs : toLowerChar c ≠ 's')
    (rest : List Char) : matchStyleAt (c :: rest) = none := by
  apply matchStyleAt_none_of_lit
  have h : takeLitCI ([] ++ 's' :: strChars "tyle=\"") ([] ++ c :: rest) = none :=
    takeLitCI_none_mism _ _ rfl (fun h => hcs (by rw [← h]; rfl))
  simpa using h

theorem matchStyleAt_stroke_start (v R2 : List Char) :
    matchStyleAt ('s' :: 't' :: (strChars "roke=\"" ++ (v ++ '"' :: R2))) =
      none := by
  apply matchStyleAt_none_of_lit
  have h : takeLitCI (['s', 't'] ++ 'y' :: strChars "le=\"")
      (['s', 't'] ++ 'r' :: (strChars "oke=\"" ++ (v ++ '"' :: R2))) = none :=
    takeLitCI_none_mism _ _ rfl (by decide)
  exact h

theorem cert_style_seg (sg : Seg) (hsg : okSeg sg) (R : List Char) :
    NoStartF (fun s => matchStyleAt s = none) (renderSeg sg) R := by
  cases sg with
  | raw t =>
    obtain ⟨-, hchars⟩ := hsg
    exact NoStartF.of_head fun c hc rest =>
      matchStyleAt_none_head (okRawChar_not_fs (hchars c hc)).2 rest
  | attr q v =>
    have hv : ∀ c ∈ v, okValChar c = true := hsg
    cases q with
    | fill =>
      refine NoStartF.of_head fun c hc rest => matchStyleAt_none_head ?_ rest
      simp only [renderSeg] at hc
      rcases List.mem_append.mp hc with h1 | h2
      · rcases List.mem_append.mp h1 with h3 | h4
        · have hall : ∀ d ∈ propStr PropName.fill ++ strChars "=\"",
              toLowerChar d ≠ 's' := by decide
          exact hall c h3
        · exact okValChar_not_s (hv c h4)
      · have : c = '"' := by simpa using h2
        rw [this]
        decide
    | stroke =>
      have hshape : renderSeg (.attr .stroke v) =
          's' :: ('t' :: (strChars "roke=\"" ++ (v ++ ['"']))) := by
        show propStr .stroke ++ strChars "=\"" ++ v ++ ['"'] = _
        simp only [List.append_assoc]
        rfl
      rw [hshape]
      refine NoStartF.cons ?_ (NoStartF.cons ?_ (NoStartF.of_head ?_))
      · have heq : ('t' :: (strChars "roke=\"" ++ (v ++ ['"']))) ++ R =
            't' :: (strChars "roke=\"" ++ (v ++ '"' :: R)) := by
          simp
        show matchStyleAt
          ('s' :: (('t' :: (strChars "roke=\"" ++ (v ++ ['"']))) ++ R)) = none
        rw [heq]
        exact matchStyleAt_stroke_start v R
      · exact matchStyleAt_none_head (by decide) _
      · intro c hc rest
        refine matchStyleAt_none_head ?_ rest
        rcases List.mem_append.mp hc with h1 | h2
        · have hall : ∀ d ∈ strChars "roke=\"", toLowerChar d ≠ 's' := by decide
          exact hall c h1
        · rcases List.mem_append.mp h2 with h3 | h4
          · exact okValChar_not_s (hv c h3)
          · have : c = '"' := by simpa using h4
            rw [this]
            decide

theorem cert_style_fam : ∀ (segs : List Seg), okSegs segs →
    NoStartF (fun s => matchStyleAt s = none) (renderSegs segs) [] := by
  intro segs
  induction segs with
  | nil =>
    intro _ a b h hb
    exact absurd (List.append_eq_nil.mp h.symm).2 hb
  | cons sg rest ih =>
    intro hok
    have hokr : okSegs rest := fun s hs => hok s (List.mem_cons_of_mem _ hs)
    have hr : renderSegs (sg :: rest) = renderSeg sg ++ renderSegs rest := by
      simp [renderSegs]
    rw [hr]
    exact NoStartF.append (cert_style_seg sg (hok sg (by simp)) _) (ih hokr)

theorem matchStyleBlockAt_cons_lt {R : List Char} (hR : LtOk R) :
    matchStyleBlockAt ('<' :: R) = none := by
  apply matchStyleBlockAt_none_of_lit
  show takeLitCI ('<' :: strChars "style") ('<' :: R) = none
  unfold takeLitCI
  rw [if_pos rfl, show takeLitCI (strChars "style") R = none from hR]

theorem matchStyleBlockAt_none_head {c : Char} (hcs : toLowerChar c ≠ '<')
    (rest : List Char) : matchStyleBlockAt (c :: rest) = none := by
  apply matchStyleBlockAt_none_of_lit
  have h : takeLitCI ([] ++ '<' :: strChars "style") ([] ++ c :: rest) = none :=
    takeLitCI_none_mism _ _ rfl (fun h => hcs (by rw [← h]; rfl))
  simpa using h

theorem ltOk_cons {d : Char} (hd : toLowerChar d ≠ 's') (R2 : List Char) :
    LtOk (d :: R2) := by
  show takeLitCI (strChars "style") (d :: R2) = none
  have h : takeLitCI ([] ++ 's' :: strChars "tyle") ([] ++ d :: R2) = none :=
    takeLitCI_none_mism _ _ rfl (fun h => hd (by rw [← h]; rfl))
  simpa using h

theorem ltOk_stroke (v R2 : List Char) :
    LtOk (renderSeg (.attr .stroke v) ++ R2) := by
  show takeLitCI (strChars "style") (renderSeg (.attr .stroke v) ++ R2) = none
  have hshape : renderSeg (.attr .stroke v) ++ R2 =
      's' :: 't' :: (strChars "roke=\"" ++ (v ++ '"' :: R2)) := by
    show propStr .stroke ++ strChars "=\"" ++ v ++ ['"'] ++ R2 = _
    simp only [List.append_assoc]
    rfl
  rw [hshape]
  have h : takeLitCI (['s', 't'] ++ 'y' :: strChars "le")
      (['s', 't'] ++ 'r' :: (strChars "oke=\"" ++ (v ++ '"' :: R2))) = none :=
    takeLitCI_none_mism _ _ rfl (by decide)
  exact h

theorem ltOk_renderSegs (segs : List Seg) (hok : okSegs segs) :
    LtOk (renderSegs segs) := by
  cases segs with
  | nil => rfl
  | cons sg rest =>
    have hr : renderSegs (sg :: rest) = renderSeg sg ++ renderSegs rest := by
      simp [renderSegs]
    rw [hr]
    cases sg with
    | raw t =>
      obtain ⟨hne, hchars⟩ := hok (.raw t) (by simp)
      cases t with
      | nil => exact absurd rfl hne
      | cons c t2 =>
        exact ltOk_cons (okRawChar_not_fs (hchars c (by simp))).2 _
    | attr q v =>
      cases q with
      | fill => exact ltOk_cons (by decide) _
      | stroke => exact ltOk_stroke v _

theorem cert_block_raw {t : List Char} (ht : ∀ c ∈ t, okRawChar c = true)
    {R : List Char} (hR : LtOk R) :
    NoStartF (fun s => matchStyleBlockAt s = none) t R := by
  induction t with
  | nil =>
    intro a b h hb
    exact absurd (List.append_eq_nil.mp h.symm).2 hb
  | cons c t ih =>
    refine NoStartF.cons ?_ (ih (fun d hd => ht d (by simp [hd])))
    by_cases hlt : c = '<'
    · subst hlt
      apply matchStyleBlockAt_cons_lt
      cases t with
      | nil => exact hR
      | cons d t2 =>
        exact ltOk_cons (okRawChar_not_fs (ht d (by simp))).2 _
    · exact matchStyleBlockAt_none_head (fun h => hlt (toLowerChar_lt h)) _

theorem cert_block_attr (q : PropName) {v : List Char}
    (hv : ∀ c ∈ v, okValChar c = true) (R : List Char) :
    NoStartF (fun s => matchStyleBlockAt s = none) (renderSeg (.attr q v)) R := by
  refine NoStartF.of_head fun c hc rest => matchStyleBlockAt_none_head ?_ rest
  intro h
  have hc2 : c = '<' := toLowerChar_lt h
  subst hc2
  simp only [renderSeg] at hc
  rcases List.mem_append.mp hc with h1 | h2
  · rcases List.mem_append.mp h1 with h3 | h4
    · cases q
      · exact absurd h3 (by decide)
      · exact absurd h3 (by decide)
    · exact absurd (hv _ h4) (by decide)
  · exact absurd h2 (by decide)

theorem cert_block_fam : ∀ (segs : List Seg), okSegs segs →
    NoStartF (fun s => matchStyleBlockAt s = none) (renderSegs segs) [] := by
  intro segs
  induction segs with
  | nil =>
    intro _ a b h hb
    exact absurd (List.append_eq_nil.mp h.symm).2 hb
  | cons sg rest ih =>
    intro hok
    have hokr : okSegs rest := fun s hs => hok s (List.mem_cons_of_mem _ hs)
    have hr : renderSegs (sg :: rest) = renderSeg sg ++ renderSegs rest := by
      simp [renderSegs]
    rw [hr]
    refine NoStartF.append ?_ (ih hokr)
    have hlt : LtOk (renderSegs rest ++ []) := by
      rw [List.append_nil]
      exact ltOk_renderSegs rest hokr
    cases sg with
    | raw t =>
      obtain ⟨-, hchars⟩ := hok (.raw t) (by simp)
      exact cert_block_raw hchars hlt
    | attr q v => exact cert_block_attr q (hok (.attr q v) (by simp)) _

/-! #### The three passes on the rendered family -/

theorem okSegs_updSeg (p : PropName) (color : List Char) (pres : Bool)
    (hc : okColor color) {segs : List Seg} (hok : okSegs segs) :
    okSegs (segs.map (updSeg p color pres)) := by
  intro sg hsg
  rw [List.mem_map] at hsg
  obtain ⟨sg0, hsg0, rfl⟩ := hsg
  have h0 := hok sg0 hsg0
  cases sg0 with
  | raw t => exact h0
  | attr q v =>
    simp only [updSeg]
    split_ifs with h1 h2
    · exact h0
    · exact fun c hcc => hc c hcc
    · exact h0

theorem applyColor_render (p : PropName) {color : List Char}
    (hc : okColor color) (pres : Bool) {segs : List Seg} (hok : okSegs segs) :
    applyColor (renderSegs segs) (propStr p) color pres =
      renderSegs (segs.map (updSeg p color pres)) := by
  unfold applyColor replaceSvgAttributes replaceInlineStyleAttributes
    replaceStyleBlocks
  rw [scanAttr_render p hc pres segs hok (renderSegs segs).length le_rfl]
  have hok2 : okSegs (segs.map (updSeg p color pres)) :=
    okSegs_updSeg p color pres hc hok
  rw [scanStyleAttr_skip (propStr p) color pres (cert_style_fam _ hok2) _ le_rfl]
  rw [scanStyleBlocks_skip (propStr p) color pres (cert_block_fam _ hok2) _ le_rfl]

theorem updSeg_idem (p : PropName) (color : List Char) (pres : Bool) (sg : Seg) :
    updSeg p color pres (updSeg p color pres sg) = updSeg p color pres sg := by
  cases sg with
  | raw t => rfl
  | attr q v =>
    simp only [updSeg]
    split_ifs with h1 h2
    · simp only [updSeg]
      rw [if_pos h1, if_pos h2]
    · simp only [updSeg]
      rw [if_pos h1, if_neg (fun h => h.2.2 h.2.1)]
    · simp only [updSeg]
      rw [if_neg h1]

theorem updSeg_comm (c1 c2 : List Char) (p1 p2 : Bool) (sg : Seg) :
    updSeg .fill c1 p1 (updSeg .stroke c2 p2 sg) =
      updSeg .stroke c2 p2 (updSeg .fill c1 p1 sg) := by
  cases sg with
  | raw t => rfl
  | attr q v =>
    have hf : ∀ w, updSeg .fill c1 p1 (Seg.attr .stroke w) = Seg.attr .stroke w :=
      fun w => by
        simp only [updSeg]
        rw [if_neg (by decide)]
    have hs : ∀ w, updSeg .stroke c2 p2 (Seg.attr .fill w) = Seg.attr .fill w :=
      fun w => by
        simp only [updSeg]
        rw [if_neg (by decide)]
    cases q with
    | fill =>
      rw [hs]
      have hw : ∃ w, updSeg .fill c1 p1 (Seg.attr .fill v) = Seg.attr .fill w := by
        simp only [updSeg, if_true]
        by_cases hcond : p1 = true ∧ lowerStr (jsTrim v) = strChars "none" ∧
            ¬ lowerStr (jsTrim c1) = strChars "none"
        · rw [if_pos hcond]
          exact ⟨v, rfl⟩
        · rw [if_neg hcond]
          exact ⟨c1, rfl⟩
      obtain ⟨w, hw⟩ := hw
      rw [hw, hs]
    | stroke =>
      rw [hf]
      have hw : ∃ w, updSeg .stroke c2 p2 (Seg.attr .stroke v) =
          Seg.attr .stroke w := by
        simp only [updSeg, if_true]
        by_cases hcond : p2 = true ∧ lowerStr (jsTrim v) = strChars "none" ∧
            ¬ lowerStr (jsTrim c2) = strChars "none"
        · rw [if_pos hcond]
          exact ⟨v, rfl⟩
        · rw [if_neg hcond]
          exact ⟨c2, rfl⟩
      obtain ⟨w, hw⟩ := hw
      rw [hw, hf]

/-- C1 (amended): on the structured family — documents rendered as a list of
segments that are either plain text free of the letters `f`/`s` (in either
case) or canonical `prop="value"` attributes with colour-character values —
the recolouring operation (the composition of the XML-attribute pass, the
inline-style pass and the style-block pass) is idempotent for every property,
colour argument drawn from colour characters, and preserve-none flag. -/
theorem claim1_amended (p : PropName) (color : List Char) (pres : Bool)
    (segs : List Seg) (hok : okSegs segs) (hc : okColor color) :
    applyColor (applyColor (renderSegs segs) (propStr p) color pres)
        (propStr p) color pres =
      applyColor (renderSegs segs) (propStr p) color pres := by
  rw [applyColor_render p hc pres hok,
    applyColor_render p hc pres (okSegs_updSeg p color pres hc hok)]
  congr 1
  rw [List.map_map]
  exact List.map_congr_left fun sg _ => updSeg_idem p color pres sg

theorem claim1_amended_witness :
    okSegs [Seg.raw (strChars "<g><path d=\"M0 0\" "),
      Seg.attr .fill (strChars "none"), Seg.raw (strChars " /></g>")] ∧
    okColor (strChars "#a1b2c3") ∧
    applyColor
        (applyColor
          (renderSegs [Seg.raw (strChars "<g><path d=\"M0 0\" "),
            Seg.attr .fill (strChars "none"), Seg.raw (strChars " /></g>")])
          (propStr .fill) (strChars "#a1b2c3") true)
        (propStr .fill) (strChars "#a1b2c3") true =
      applyColor
        (renderSegs [Seg.raw (strChars "<g><path d=\"M0 0\" "),
          Seg.attr .fill (strChars "none"), Seg.raw (strChars " /></g>")])
        (propStr .fill) (strChars "#a1b2c3") true :=
  ⟨by decide, by decide,
    claim1_amended .fill (strChars "#a1b2c3") true _ (by decide) (by decide)⟩

/-- C2 (amended): on the structured family, a document containing a canonical
`fill="none"` attribute recoloured towards a non-`none` colour keeps that
attribute unchanged under `preserveNone = true` and rewrites its value to the
colour under `preserveNone = false`; the other segments are updated exactly
as the per-segment update prescribes. -/
theorem claim2_amended (color : List Char) (hc : okColor color)
    (hcnone : ¬ lowerStr (jsTrim color) = strChars "none")
    (pre post : List Seg)
    (hok : okSegs (pre ++ Seg.attr .fill (strChars "none") :: post)) :
    applyColor (renderSegs (pre ++ Seg.attr .fill (strChars "none") :: post))
        (propStr .fill) color true =
      renderSegs (pre.map (updSeg .fill color true) ++
        Seg.attr .fill (strChars "none") :: post.map (updSeg .fill color true)) ∧
    applyColor (renderSegs (pre ++ Seg.attr .fill (strChars "none") :: post))
        (propStr .fill) color false =
      renderSegs (pre.map (updSeg .fill color false) ++
        Seg.attr .fill color :: post.map (updSeg .fill color false)) := by
  constructor
  · rw [applyColor_render .fill hc true hok]
    rw [List.map_append, List.map_cons]
    have hupd : updSeg .fill color true (Seg.attr .fill (strChars "none")) =
        Seg.attr .fill (strChars "none") := by
      simp only [updSeg, if_true]
      rw [if_pos ⟨by trivial, by decide, hcnone⟩]
    rw [hupd]
  · rw [applyColor_render .fill hc false hok]
    rw [List.map_append, List.map_cons]
    have hupd : updSeg .fill color false (Seg.attr .fill (strChars "none")) =
        Seg.attr .fill color := by
      simp only [updSeg, if_true]
      rw [if_neg (by
        intro h
        exact absurd h.1 (by decide))]
    rw [hupd]

theorem claim2_amended_witness :
    okColor (strChars "#a1b2c3") ∧
    ¬ lowerStr (jsTrim (strChars "#a1b2c3")) = strChars "none" ∧
    okSegs ([Seg.raw (strChars "<g>")] ++
      Seg.attr .fill (strChars "none") :: [Seg.raw (strChars "</g>")]) ∧
    (applyColor
        (renderSegs ([Seg.raw (strChars "<g>")] ++
          Seg.attr .fill (strChars "none") :: [Seg.raw (strChars "</g>")]))
        (propStr .fill) (strChars "#a1b2c3") true =
      renderSegs ([Seg.raw (strChars "<g>")].map
          (updSeg .fill (strChars "#a1b2c3") true) ++
        Seg.attr .fill (strChars "none") ::
          [Seg.raw (strChars "</g>")].map
            (updSeg .fill (strChars "#a1b2c3") true)) ∧
    applyColor
        (renderSegs ([Seg.raw (strChars "<g>")] ++
          Seg.attr .fill (strChars "none") :: [Seg.raw (strChars "</g>")]))
        (propStr .fill) (strChars "#a1b2c3") false =
      renderSegs ([Seg.raw (strChars "<g>")].map
          (updSeg .fill (strChars "#a1b2c3") false) ++
        Seg.attr .fill (strChars "#a1b2c3") ::
          [Seg.raw (strChars "</g>")].map
            (updSeg .fill (strChars "#a1b2c3") false))) :=
  ⟨by decide, by decide, by decide,
    claim2_amended (strChars "#a1b2c3") (by decide) (by decide) _ _ (by decide)⟩

/-- C7 (amended): on the structured family, recolouring the fill property and
then the stroke property yields the same text as the two requests applied in
the opposite order, for all colour arguments drawn from colour characters and
all preserve-none flags. -/
theorem claim7_amended (cf c2 : List Char) (hcf : okColor cf)
    (hc2 : okColor c2) (pf p2 : Bool) (segs : List Seg) (hok : okSegs segs) :
    applyColor (applyColor (renderSegs segs) (propStr .fill) cf pf)
        (propStr .stroke) c2 p2 =
      applyColor (applyColor (renderSegs segs) (propStr .stroke) c2 p2)
        (propStr .fill) cf pf := by
  rw [applyColor_render .fill hcf pf hok,
    applyColor_render .stroke hc2 p2 (okSegs_updSeg _ _ _ hcf hok),
    applyColor_render .stroke hc2 p2 hok,
    applyColor_render .fill hcf pf (okSegs_updSeg _ _ _ hc2 hok)]
  congr 1
  rw [List.map_map, List.map_map]
  exact List.map_congr_left fun sg _ => (updSeg_comm cf c2 pf p2 sg).symm

theorem claim7_amended_witness :
    okColor (strChars "#ff0000") ∧ okColor (strChars "none") ∧
    okSegs [Seg.raw (strChars "<g><path "),
      Seg.attr .fill (strChars "#abc"), Seg.raw (strChars " "),
      Seg.attr .stroke (strChars "none"), Seg.raw (strChars "/></g>")] ∧
    applyColor
        (applyColor
          (renderSegs [Seg.raw (strChars "<g><path "),
            Seg.attr .fill (strChars "#abc"), Seg.raw (strChars " "),
            Seg.attr .stroke (strChars "none"), Seg.raw (strChars "/></g>")])
          (propStr .fill) (strChars "#ff0000") true)
        (propStr .stroke) (strChars "none") true =
      applyColor
        (applyColor
          (renderSegs [Seg.raw (strChars "<g><path "),
            Seg.attr .fill (strChars "#abc"), Seg.raw (strChars " "),
            Seg.attr .stroke (strChars "none"), Seg.raw (strChars "/></g>")])
          (propStr .stroke) (strChars "none") true)
        (propStr .fill) (strChars "#ff0000") true :=
  ⟨by decide, by decide, by decide,
    claim7_amended (strChars "#ff0000") (strChars "none") (by decide) (by decide)
      true true _ (by decide)⟩

/-! #### The number builders contain no tag terminator -/

theorem natDecAux_gtFree :
    ∀ (fuel n : Nat) (acc : List Char), (∀ c ∈ acc, c ≠ '>') →
      ∀ c ∈ natDecAux fuel n acc, c ≠ '>' := by
  intro fuel
  induction fuel with
  | zero => intro n acc hacc; exact hacc
  | succ fuel ih =>
    intro n acc hacc c hc
    unfold natDecAux at hc
    split_ifs at hc with hn
    · rcases List.mem_cons.mp hc with h1 | h2
      · subst h1
        intro h
        have h2 := congrArg Char.toNat h
        rw [toNat_ofNat_lt (by omega)] at h2
        have h3 : ('>' : Char).toNat = 62 := rfl
        omega
      · exact hacc c h2
    · refine ih (n / 10) _ ?_ c hc
      intro d hd
      rcases List.mem_cons.mp hd with h1 | h2
      · subst h1
        intro h
        have h2 := congrArg Char.toNat h
        have hlt : n % 10 < 10 := Nat.mod_lt _ (by omega)
        rw [toNat_ofNat_lt (by omega)] at h2
        have h3 : ('>' : Char).toNat = 62 := rfl
        omega
      · exact hacc d h2

theorem natDecStr_gtFree (n : Nat) : ∀ c ∈ natDecStr n, c ≠ '>' :=
  natDecAux_gtFree (n + 1) n [] (by simp)

theorem intDecStr_gtFree (i : ℤ) : ∀ c ∈ intDecStr i, c ≠ '>' := by
  intro c hc
  unfold intDecStr at hc
  split_ifs at hc with h
  · rcases List.mem_cons.mp hc with h1 | h2
    · subst h1
      decide
    · exact natDecStr_gtFree _ c h2
  · exact natDecStr_gtFree _ c hc

theorem gtFree_fixedCore {padded : List Char} (hp : ∀ c ∈ padded, c ≠ '>')
    (k d : Nat) (scaled : ℤ) :
    ∀ c ∈ (if scaled < 0 then
        '-' :: (if d = 0 then padded.take k
          else padded.take k ++ ['.'] ++ padded.drop k)
      else (if d = 0 then padded.take k
        else padded.take k ++ ['.'] ++ padded.drop k)), c ≠ '>' := by
  have hcore : ∀ e ∈ (if d = 0 then padded.take k
      else padded.take k ++ ['.'] ++ padded.drop k), e ≠ '>' := by
    intro e he
    split_ifs at he
    · exact hp e (List.take_subset k padded he)
    · rcases List.mem_append.mp he with h1 | h2
      · rcases List.mem_append.mp h1 with h3 | h4
        · exact hp e (List.take_subset k padded h3)
        · have h5 : e = '.' := by simpa using h4
          subst h5
          decide
      · exact hp e (List.drop_subset k padded h2)
  intro c hc
  by_cases hneg : scaled < 0
  · rw [if_pos hneg] at hc
    rcases List.mem_cons.mp hc with h1 | h2
    · subst h1
      decide
    · exact hcore c h2
  · rw [if_neg hneg] at hc
    exact hcore c hc

theorem gtFree_pad {ds : List Char} (hds : ∀ e ∈ ds, e ≠ '>') (d : Nat) :
    ∀ e ∈ (if ds.length < d + 1 then
      List.replicate (d + 1 - ds.length) '0' ++ ds else ds), e ≠ '>' := by
  intro e he
  by_cases h1 : ds.length < d + 1
  · rw [if_pos h1] at he
    rcases List.mem_append.mp he with h2 | h3
    · have h4 := List.eq_of_mem_replicate h2
      subst h4
      decide
    · exact hds e h3
  · rw [if_neg h1] at he
    exact hds e he

theorem jsToFixed_gtFree (q : ℚ) (d : Nat) : ∀ c ∈ jsToFixed q d, c ≠ '>' :=
  fun c hc => gtFree_fixedCore (gtFree_pad (natDecStr_gtFree _) d) _ d _ c hc

theorem gtFree_stripZeros {s : List Char} (hs : ∀ c ∈ s, c ≠ '>') :
    ∀ c ∈ (if ((s.reverse.dropWhile (fun c => c == '0')).reverse.getLast? =
        some '.') then
      (s.reverse.dropWhile (fun c => c == '0')).reverse.dropLast
    else (s.reverse.dropWhile (fun c => c == '0')).reverse), c ≠ '>' := by
  have hs1 : ∀ c ∈ (s.reverse.dropWhile (fun c => c == '0')).reverse, c ≠ '>' := by
    intro c hc
    rw [List.mem_reverse] at hc
    have h2 := List.dropWhile_subset _ hc
    rw [List.mem_reverse] at h2
    exact hs c h2
  intro c hc
  split_ifs at hc
  · exact hs1 c (List.dropLast_subset _ hc)
  · exact hs1 c hc

theorem formatNumber_gtFree (q : ℚ) : ∀ c ∈ formatNumber q, c ≠ '>' := by
  intro c hc
  by_cases h1 : ratIsInt q = true
  · have heq : formatNumber q = intDecStr q.num := by
      unfold formatNumber
      rw [if_pos h1]
    rw [heq] at hc
    exact intDecStr_gtFree _ c hc
  · have heq : formatNumber q =
        (if (((jsToFixed q 4).reverse.dropWhile
            (fun c => c == '0')).reverse.getLast? = some '.') then
          ((jsToFixed q 4).reverse.dropWhile (fun c => c == '0')).reverse.dropLast
        else ((jsToFixed q 4).reverse.dropWhile (fun c => c == '0')).reverse) := by
      unfold formatNumber
      rw [if_neg h1]
    rw [heq] at hc
    exact gtFree_stripZeros (jsToFixed_gtFree q 4) c hc

theorem numToStr_gtFree (q : ℚ) : ∀ c ∈ numToStr q, c ≠ '>' := by
  intro c hc
  unfold numToStr at hc
  split_ifs at hc
  · exact intDecStr_gtFree _ c hc
  · exact jsToFixed_gtFree _ _ c hc

/-! #### Substring helpers for the marker -/

theorem isPrefixOfCI_refl_append (pat rest : List Char) :
    isPrefixOfCI pat (pat ++ rest) = true := by
  induction pat with
  | nil => rfl
  | cons p ps ih =>
    show isPrefixOfCI (p :: ps) (p :: (ps ++ rest)) = true
    unfold isPrefixOfCI
    simp [ih]

theorem containsSubCI_here (pat rest : List Char) :
    containsSubCI pat (pat ++ rest) = true := by
  cases pat with
  | nil =>
    cases rest with
    | nil => rfl
    | cons c cs =>
      show containsSubCI [] (c :: cs) = true
      unfold containsSubCI
      simp [isPrefixOfCI]
  | cons p ps =>
    show containsSubCI (p :: ps) (p :: (ps ++ rest)) = true
    unfold containsSubCI
    rw [show (p :: (ps ++ rest)) = (p :: ps) ++ rest from rfl,
      isPrefixOfCI_refl_append]
    rfl

theorem containsSubCI_cons (pat : List Char) (c : Char) {cs : List Char}
    (h : containsSubCI pat cs = true) : containsSubCI pat (c :: cs) = true := by
  unfold containsSubCI
  cases pat with
  | nil => rfl
  | cons p ps =>
    rw [h]
    simp

theorem gtFree_takeWhile {mid : List Char} (h : ∀ c ∈ mid, c ≠ '>')
    (S : List Char) :
    (mid ++ '>' :: S).takeWhile (fun c => c != '>') = mid ∧
      (mid ++ '>' :: S).dropWhile (fun c => c != '>') = '>' :: S := by
  induction mid with
  | nil =>
    constructor
    · show List.takeWhile _ ('>' :: S) = []
      rw [List.takeWhile_cons]
      simp
    · show List.dropWhile _ ('>' :: S) = '>' :: S
      rw [List.dropWhile_cons]
      simp
  | cons c mid ih =>
    have hc : (c != '>') = true := by
      simpa using h c (by simp)
    obtain ⟨ih1, ih2⟩ := ih (fun d hd => h d (by simp [hd]))
    constructor
    · show List.takeWhile _ (c :: (mid ++ '>' :: S)) = c :: mid
      rw [List.takeWhile_cons, hc]
      simp [ih1]
    · show List.dropWhile _ (c :: (mid ++ '>' :: S)) = '>' :: S
      rw [List.dropWhile_cons, hc]
      simpa using ih2

theorem buildVB_shape (vb : ViewBoxValues) (color : List Char) (r i : ℚ)
    (S : List Char) :
    buildInsetRectFromViewBox vb color r i ++ S =
      strChars "<rect" ++ (rectMidVB vb color r i ++ '>' :: S) := by
  unfold buildInsetRectFromViewBox rectMidVB
  simp only [List.append_assoc]
  rfl

theorem buildPct_shape (color : List Char) (r i : ℚ) (S : List Char) :
    buildInsetRectWithPercent color r i ++ S =
      strChars "<rect" ++ (rectMidPct color r i ++ '>' :: S) := by
  unfold buildInsetRectWithPercent rectMidPct
  simp only [List.append_assoc]
  rfl

theorem gtFree_append {a b : List Char} (ha : ∀ c ∈ a, c ≠ '>')
    (hb : ∀ c ∈ b, c ≠ '>') : ∀ c ∈ a ++ b, c ≠ '>' :=
  fun c hc => (List.mem_append.mp hc).elim (ha c) (hb c)

theorem rectMidVB_gtFree (vb : ViewBoxValues) (color : List Char) (r i : ℚ)
    (hcolor : ∀ c ∈ color, c ≠ '>') :
    ∀ c ∈ rectMidVB vb color r i, c ≠ '>' := by
  intro c hcm
  unfold rectMidVB at hcm
  simp only [List.mem_append, or_assoc] at hcm
  rcases hcm with h|h|h|h|h|h|h|h|h|h|h|h|h|h|h|h|h
  all_goals first
    | exact formatNumber_gtFree _ c h
    | exact numToStr_gtFree _ c h
    | exact hcolor c h
    | (intro he; subst he; exact absurd h (by decide))

theorem rectMidPct_gtFree (color : List Char) (r i : ℚ)
    (hcolor : ∀ c ∈ color, c ≠ '>') :
    ∀ c ∈ rectMidPct color r i, c ≠ '>' := by
  intro c hcm
  unfold rectMidPct at hcm
  simp only [List.mem_append, or_assoc] at hcm
  rcases hcm with h|h|h|h|h|h|h|h|h|h|h|h|h|h|h|h|h
  all_goals first
    | exact jsToFixed_gtFree _ _ c h
    | exact numToStr_gtFree _ c h
    | exact hcolor c h
    | (intro he; subst he; exact absurd h (by decide))

theorem getLastQuoteSlash (X : List Char) :
    (X ++ ['"', '/']).getLast? = some '/' := by
  rw [show X ++ ['"', '/'] = (X ++ ['"']) ++ ['/'] by simp, List.getLast?_concat]

theorem rectMidVB_getLast (vb : ViewBoxValues) (color : List Char) (r i : ℚ) :
    (rectMidVB vb color r i).getLast? = some '/' := by
  unfold rectMidVB
  exact getLastQuoteSlash _

theorem rectMidPct_getLast (color : List Char) (r i : ℚ) :
    (rectMidPct color r i).getLast? = some '/' := by
  unfold rectMidPct
  exact getLastQuoteSlash _

theorem containsSubCI_of_mid {pat : List Char} (a b : List Char) :
    containsSubCI pat (a ++ (pat ++ b)) = true := by
  induction a with
  | nil => exact containsSubCI_here pat b
  | cons c a ih => exact containsSubCI_cons pat c ih

theorem containsSubCI_assoc_helper {pat s : List Char} (a b : List Char)
    (hs : s = a ++ (pat ++ b)) : containsSubCI pat s = true := by
  rw [hs]
  exact containsSubCI_of_mid a b

theorem rectMidVB_marker (vb : ViewBoxValues) (color : List Char) (r i : ℚ) :
    containsSubCI inactiveBgMarker (rectMidVB vb color r i) = true :=
  containsSubCI_assoc_helper (strChars " ") _
    (by unfold rectMidVB; simp only [List.append_assoc]; rfl)

theorem rectMidPct_marker (color : List Char) (r i : ℚ) :
    containsSubCI inactiveBgMarker (rectMidPct color r i) = true :=
  containsSubCI_assoc_helper (strChars " ") _
    (by unfold rectMidPct; simp only [List.append_assoc]; rfl)

theorem matchRectAt_marker {mid : List Char} (hGt : ∀ c ∈ mid, c ≠ '>')
    (hsl : mid.getLast? = some '/')
    (hmk : containsSubCI inactiveBgMarker mid = true) (S : List Char) :
    matchRectAt (strChars "<rect" ++ (mid ++ '>' :: S)) =
      some (strChars "<rect" ++ mid ++ ['>'], S) := by
  unfold matchRectAt
  rw [takeLitCI_refl]
  obtain ⟨ht, hd⟩ := gtFree_takeWhile hGt S
  simp only [ht, hd]
  rw [if_pos ⟨hsl, hmk⟩]

theorem matchRectAt_buildVB (vb : ViewBoxValues) (color : List Char) (r i : ℚ)
    (hcolor : ∀ c ∈ color, c ≠ '>') (S : List Char) :
    matchRectAt (buildInsetRectFromViewBox vb color r i ++ S) =
      some (buildInsetRectFromViewBox vb color r i, S) := by
  rw [buildVB_shape,
    matchRectAt_marker (rectMidVB_gtFree vb color r i hcolor)
      (rectMidVB_getLast vb color r i) (rectMidVB_marker vb color r i) S]
  have hb := buildVB_shape vb color r i []
  rw [List.append_nil] at hb
  rw [hb]
  simp [List.append_assoc]

theorem matchRectAt_buildPct (color : List Char) (r i : ℚ)
    (hcolor : ∀ c ∈ color, c ≠ '>') (S : List Char) :
    matchRectAt (buildInsetRectWithPercent color r i ++ S) =
      some (buildInsetRectWithPercent color r i, S) := by
  rw [buildPct_shape,
    matchRectAt_marker (rectMidPct_gtFree color r i hcolor)
      (rectMidPct_getLast color r i) (rectMidPct_marker color r i) S]
  have hb := buildPct_shape color r i []
  rw [List.append_nil] at hb
  rw [hb]
  simp [List.append_assoc]

/-! #### The built rectangles contain no substitution escape -/

theorem neFree_append {d : Char} {a b : List Char} (ha : ∀ c ∈ a, c ≠ d)
    (hb : ∀ c ∈ b, c ≠ d) : ∀ c ∈ a ++ b, c ≠ d :=
  fun c hc => (List.mem_append.mp hc).elim (ha c) (hb c)

theorem natDecAux_dollarFree :
    ∀ (fuel n : Nat) (acc : List Char), (∀ c ∈ acc, c ≠ '$') →
      ∀ c ∈ natDecAux fuel n acc, c ≠ '$' := by
  intro fuel
  induction fuel with
  | zero => intro n acc hacc; exact hacc
  | succ fuel ih =>
    intro n acc hacc c hc
    unfold natDecAux at hc
    split_ifs at hc with hn
    · rcases List.mem_cons.mp hc with h1 | h2
      · subst h1
        intro h
        have h2 := congrArg Char.toNat h
        rw [toNat_ofNat_lt (by omega)] at h2
        have h3 : ('$' : Char).toNat = 36 := rfl
        omega
      · exact hacc c h2
    · refine ih (n / 10) _ ?_ c hc
      intro d hd
      rcases List.mem_cons.mp hd with h1 | h2
      · subst h1
        intro h
        have h2 := congrArg Char.toNat h
        have hlt : n % 10 < 10 := Nat.mod_lt _ (by omega)
        rw [toNat_ofNat_lt (by omega)] at h2
        have h3 : ('$' : Char).toNat = 36 := rfl
        omega
      · exact hacc d h2

theorem natDecStr_dollarFree (n : Nat) : ∀ c ∈ natDecStr n, c ≠ '$' :=
  natDecAux_dollarFree (n + 1) n [] (by simp)

theorem intDecStr_dollarFree (i : ℤ) : ∀ c ∈ intDecStr i, c ≠ '$' := by
  intro c hc
  unfold intDecStr at hc
  split_ifs at hc with h
  · rcases List.mem_cons.mp hc with h1 | h2
    · subst h1
      decide
    · exact natDecStr_dollarFree _ c h2
  · exact natDecStr_dollarFree _ c hc

theorem dollarFree_fixedCore {padded : List Char} (hp : ∀ c ∈ padded, c ≠ '$')
    (k d : Nat) (scaled : ℤ) :
    ∀ c ∈ (if scaled < 0 then
        '-' :: (if d = 0 then padded.take k
          else padded.take k ++ ['.'] ++ padded.drop k)
      else (if d = 0 then padded.take k
        else padded.take k ++ ['.'] ++ padded.drop k)), c ≠ '$' := by
  have hcore : ∀ e ∈ (if d = 0 then padded.take k
      else padded.take k ++ ['.'] ++ padded.drop k), e ≠ '$' := by
    intro e he
    split_ifs at he
    · exact hp e (List.take_subset k padded he)
    · rcases List.mem_append.mp he with h1 | h2
      · rcases List.mem_append.mp h1 with h3 | h4
        · exact hp e (List.take_subset k padded h3)
        · have h5 : e = '.' := by simpa using h4
          subst h5
          decide
      · exact hp e (List.drop_subset k padded h2)
  intro c hc
  by_cases hneg : scaled < 0
  · rw [if_pos hneg] at hc
    rcases List.mem_cons.mp hc with h1 | h2
    · subst h1
      decide
    · exact hcore c h2
  · rw [if_neg hneg] at hc
    exact hcore c hc

theorem dollarFree_pad {ds : List Char} (hds : ∀ e ∈ ds, e ≠ '$') (d : Nat) :
    ∀ e ∈ (if ds.length < d + 1 then
      List.replicate (d + 1 - ds.length) '0' ++ ds else ds), e ≠ '$' := by
  intro e he
  by_cases h1 : ds.length < d + 1
  · rw [if_pos h1] at he
    rcases List.mem_append.mp he with h2 | h3
    · have h4 := List.eq_of_mem_replicate h2
      subst h4
      decide
    · exact hds e h3
  · rw [if_neg h1] at he
    exact hds e he

theorem jsToFixed_dollarFree (q : ℚ) (d : Nat) : ∀ c ∈ jsToFixed q d, c ≠ '$' :=
  fun c hc =>
    dollarFree_fixedCore (dollarFree_pad (natDecStr_dollarFree _) d) _ d _ c hc

theorem dollarFree_stripZeros {s : List Char} (hs : ∀ c ∈ s, c ≠ '$') :
    ∀ c ∈ (if ((s.reverse.dropWhile (fun c => c == '0')).reverse.getLast? =
        some '.') then
      (s.reverse.dropWhile (fun c => c == '0')).reverse.dropLast
    else (s.reverse.dropWhile (fun c => c == '0')).reverse), c ≠ '$' := by
  have hs1 : ∀ c ∈ (s.reverse.dropWhile (fun c => c == '0')).reverse, c ≠ '$' := by
    intro c hc
    rw [List.mem_reverse] at hc
    have h2 := List.dropWhile_subset _ hc
    rw [List.mem_reverse] at h2
    exact hs c h2
  intro c hc
  split_ifs at hc
  · exact hs1 c (List.dropLast_subset _ hc)
  · exact hs1 c hc

theorem formatNumber_dollarFree (q : ℚ) : ∀ c ∈ formatNumber q, c ≠ '$' := by
  intro c hc
  by_cases h1 : ratIsInt q = true
  · have heq : formatNumber q = intDecStr q.num := by
      unfold formatNumber
      rw [if_pos h1]
    rw [heq] at hc
    exact intDecStr_dollarFree _ c hc
  · have heq : formatNumber q =
        (if (((jsToFixed q 4).reverse.dropWhile
            (fun c => c == '0')).reverse.getLast? = some '.') then
          ((jsToFixed q 4).reverse.dropWhile (fun c => c == '0')).reverse.dropLast
        else ((jsToFixed q 4).reverse.dropWhile (fun c => c == '0')).reverse) := by
      unfold formatNumber
      rw [if_neg h1]
    rw [heq] at hc
    exact dollarFree_stripZeros (jsToFixed_dollarFree q 4) c hc

theorem numToStr_dollarFree (q : ℚ) : ∀ c ∈ numToStr q, c ≠ '$' := by
  intro c hc
  unfold numToStr at hc
  split_ifs at hc
  · exact intDecStr_dollarFree _ c hc
  · exact jsToFixed_dollarFree _ _ c hc

theorem rectMidVB_dollarFree (vb : ViewBoxValues) (color : List Char) (r i : ℚ)
    (hcolor : ∀ c ∈ color, c ≠ '$') :
    ∀ c ∈ rectMidVB vb color r i, c ≠ '$' := by
  intro c hcm
  unfold rectMidVB at hcm
  simp only [List.mem_append, or_assoc] at hcm
  rcases hcm with h|h|h|h|h|h|h|h|h|h|h|h|h|h|h|h|h
  all_goals first
    | exact formatNumber_dollarFree _ c h
    | exact numToStr_dollarFree _ c h
    | exact hcolor c h
    | (intro he; subst he; exact absurd h (by decide))

theorem rectMidPct_dollarFree (color : List Char) (r i : ℚ)
    (hcolor : ∀ c ∈ color, c ≠ '$') :
    ∀ c ∈ rectMidPct color r i, c ≠ '$' := by
  intro c hcm
  unfold rectMidPct at hcm
  simp only [List.mem_append, or_assoc] at hcm
  rcases hcm with h|h|h|h|h|h|h|h|h|h|h|h|h|h|h|h|h
  all_goals first
    | exact jsToFixed_dollarFree _ _ c h
    | exact numToStr_dollarFree _ c h
    | exact hcolor c h
    | (intro he; subst he; exact absurd h (by decide))

theorem buildVB_dollarFree (vb : ViewBoxValues) (color : List Char) (r i : ℚ)
    (hcolor : ∀ c ∈ color, c ≠ '$') :
    ∀ c ∈ buildInsetRectFromViewBox vb color r i, c ≠ '$' := by
  have hb := buildVB_shape vb color r i []
  rw [List.append_nil] at hb
  rw [hb]
  exact neFree_append (by decide)
    (neFree_append (rectMidVB_dollarFree vb color r i hcolor) (by decide))

theorem buildPct_dollarFree (color : List Char) (r i : ℚ)
    (hcolor : ∀ c ∈ color, c ≠ '$') :
    ∀ c ∈ buildInsetRectWithPercent color r i, c ≠ '$' := by
  have hb := buildPct_shape color r i []
  rw [List.append_nil] at hb
  rw [hb]
  exact neFree_append (by decide)
    (neFree_append (rectMidPct_dollarFree color r i hcolor) (by decide))

/-- On a replacement string without `$`, the substitution is the identity. -/
theorem getSubst_id (m pre post : List Char) :
    ∀ (fuel : Nat) (s : List Char), (∀ c ∈ s, c ≠ '$') →
      getSubst m pre post fuel s = s := by
  intro fuel
  induction fuel with
  | zero => intro s _; cases s <;> rfl
  | succ fuel ih =>
    intro s hs
    cases s with
    | nil => rfl
    | cons c t =>
      show getSubst m pre post (fuel + 1) (c :: t) = c :: t
      unfold getSubst
      rw [if_neg (hs c (by simp)), ih t (fun d hd => hs d (by simp [hd]))]

/-! #### The leftmost marked-rectangle search, walked explicitly -/

theorem findRect_at (P X m rest : List Char)
    (hm : matchRectAt X = some (m, rest)) :
    ∀ fuel, (P ++ X).length ≤ fuel →
    (∀ k, k < P.length → matchRectAt ((P ++ X).drop k) = none) →
    findRect fuel (P ++ X) = some (P, m, rest) := by
  induction P with
  | nil =>
    intro fuel hfuel _
    cases X with
    | nil =>
      rw [show matchRectAt ([] : List Char) = none from by decide] at hm
      simp at hm
    | cons c cs =>
      cases fuel with
      | zero => simp at hfuel
      | succ fuel =>
        show findRect (fuel + 1) (c :: cs) = _
        unfold findRect
        rw [hm]
  | cons p P ih =>
    intro fuel hfuel hP
    cases fuel with
    | zero => simp at hfuel
    | succ fuel =>
      show findRect (fuel + 1) (p :: (P ++ X)) = _
      unfold findRect
      have h0 : matchRectAt (p :: (P ++ X)) = none := by
        have h1 := hP 0 (by simp)
        simpa using h1
      rw [h0]
      have h2 : findRect fuel (P ++ X) = some (P, m, rest) := by
        refine ih fuel (by simpa using hfuel) ?_
        intro k hk
        have h3 := hP (k + 1) (by simpa using hk)
        simpa using h3
      rw [h2]

/-- C8 (amended): a document that already carries, after a prefix in which no
marked-rectangle match starts, exactly the rectangle that the injector would
build for it, is returned unchanged by `addOrUpdateBackgroundRect`: the
marked rectangle is found and replaced in place, and no second rectangle is
inserted.  The colour is free of `>` (so the rectangle stays a single tag)
and of `$` (so the replacement string carries no substitution escape), and
the document sits where the viewBox model provably agrees with `Number()`:
either its extraction succeeds here — the decimal grammar of `jsNumber` is a
subset of the JavaScript one with equal values — or no `viewBox` attribute
matches at all. -/
theorem claim8_amended (P R S color : List Char) (r i : ℚ)
    (hcolor : ∀ c ∈ color, c ≠ '>')
    (hdollar : ∀ c ∈ color, c ≠ '$')
    (hR : (∃ vb, extractViewBox (P ++ R ++ S) = some vb ∧
        R = buildInsetRectFromViewBox vb color r (clampRatio i)) ∨
      (findViewBox (P ++ R ++ S).length (P ++ R ++ S) = none ∧
        R = buildInsetRectWithPercent color r (clampRatio i)))
    (hP : ∀ k, k < P.length → matchRectAt ((P ++ R ++ S).drop k) = none) :
    addOrUpdateBackgroundRect (P ++ R ++ S) color r i =
      .ok (P ++ R ++ S) := by
  have hRd : ∀ c ∈ R, c ≠ '$' := by
    rcases hR with ⟨vb, -, hRe⟩ | ⟨-, hRe⟩
    · rw [hRe]
      exact buildVB_dollarFree vb color r (clampRatio i) hdollar
    · rw [hRe]
      exact buildPct_dollarFree color r (clampRatio i) hdollar
  have hrect : (match extractViewBox (P ++ R ++ S) with
      | some vb => buildInsetRectFromViewBox vb color r (clampRatio i)
      | none => buildInsetRectWithPercent color r (clampRatio i)) = R := by
    rcases hR with ⟨vb, hvb, hRe⟩ | ⟨hfv, hRe⟩
    · rw [hvb]
      exact hRe.symm
    · have hnone : extractViewBox (P ++ R ++ S) = none := by
        unfold extractViewBox
        rw [hfv]
      rw [hnone]
      exact hRe.symm
  have hmatch : matchRectAt (R ++ S) = some (R, S) := by
    rcases hR with ⟨vb, -, hRe⟩ | ⟨-, hRe⟩
    · rw [hRe]
      exact matchRectAt_buildVB vb color r (clampRatio i) hcolor S
    · rw [hRe]
      exact matchRectAt_buildPct color r (clampRatio i) hcolor S
  have hfind : findRect (P ++ R ++ S).length (P ++ R ++ S) =
      some (P, R, S) := by
    have h4 := findRect_at P (R ++ S) R S hmatch (P ++ (R ++ S)).length le_rfl
      (fun k hk => by
        have h2 := hP k (by simpa using hk)
        simpa [List.append_assoc] using h2)
    simpa [List.append_assoc] using h4
  unfold addOrUpdateBackgroundRect
  rw [hfind]
  simp only
  rw [hrect, getSubst_id R P S R.length R hRd]

set_option maxRecDepth 100000 in
theorem claim8_amended_witness :
    addOrUpdateBackgroundRect
        (strChars "<svg viewBox=\"0 0 24 24\">" ++
          strChars "<rect data-vivaldi-inactive-bg=\"true\" x=\"1.2\" y=\"1.2\" width=\"21.6\" height=\"21.6\" rx=\"6\" ry=\"6\" fill=\"#ff0000\"/>" ++
          strChars "</svg>") (strChars "#ff0000") 6 (1 / 10) =
      .ok (strChars "<svg viewBox=\"0 0 24 24\">" ++
        strChars "<rect data-vivaldi-inactive-bg=\"true\" x=\"1.2\" y=\"1.2\" width=\"21.6\" height=\"21.6\" rx=\"6\" ry=\"6\" fill=\"#ff0000\"/>" ++
        strChars "</svg>") :=
  claim8_amended (strChars "<svg viewBox=\"0 0 24 24\">")
    (strChars "<rect data-vivaldi-inactive-bg=\"true\" x=\"1.2\" y=\"1.2\" width=\"21.6\" height=\"21.6\" rx=\"6\" ry=\"6\" fill=\"#ff0000\"/>")
    (strChars "</svg>") (strChars "#ff0000") 6 (1 / 10)
    (by decide) (by decide)
    (Or.inl ⟨⟨0, 0, 24, 24⟩, by decide, by decide⟩) (by decide)

end VivaldiIcon
